import Mathlib

/-!
# PothosWidgets: drop-down selector, time-domain plot, frequency-domain plot

A shallow embedding of `src/DropDown.cpp`, `src/TimeDomainPlot/TimeDomainPlotWork.cpp`
and `src/FreqDomainPlot/FreqDomainPlotWork.cpp`.

Conventions of the embedding.

* A C++ member function that mutates the object becomes a function from the object
  state to the new state.  A member function that can throw returns the state reached
  at the point of the throw together with `some` exception, so that the effects that
  happened before the throw stay visible.
* Calls into the GUI toolkit and the dataflow framework that the sources only use are
  recorded in the state (`consumeLog`, `replots`, `queued`, ...).
* `double` values that are only moved around (samples, sample rate, plot points) are
  `Float`.  The display rate enters an arithmetic comparison the claims are about; it is
  the rational value of the `double`, the quotient `1e9/_displayRate` is rounded to the
  nearest `double` (`roundToDouble`) and the cast to `long long` is 64 bits wide.
-/

set_option autoImplicit false

namespace PothosWidgets

/-! ## Framework objects used by the widgets -/

/-- Exceptions thrown by the sources (by name, with the message where there is one). -/
inductive Exception where
  | DataFormatException (source message : String)
  | InvalidArgumentException (source message : String)
  | out_of_range
deriving DecidableEq, Repr

/-- Modelled from the spec: `Pothos::Object` (declared in the framework, not in the
sources) as far as the drop-down uses it: an empty object, numbers, strings, and
vectors of objects (`Pothos::ObjectVector`). -/
inductive Object where
  | null
  | int (n : Int)
  | str (s : String)
  | vec (xs : List Object)
deriving Repr

mutual
/-- Modelled from the spec: `Object::equals` compares two objects by value. -/
def Object.equals : Object → Object → Bool
  | .null, .null => true
  | .int a, .int b => decide (a = b)
  | .str a, .str b => decide (a = b)
  | .vec a, .vec b => Object.equalsAll a b
  | _, _ => false
/-- Element-wise `Object.equals` on two object vectors. -/
def Object.equalsAll : List Object → List Object → Bool
  | [], [] => true
  | a :: as, b :: bs => Object.equals a b && Object.equalsAll as bs
  | _, _ => false
end

/-- The test `canConvert(typeid(Pothos::ObjectVector))` followed by `convert`. -/
def Object.convertObjectVector : Object → Option (List Object)
  | .vec xs => some xs
  | _ => none

/-- The test `canConvert(typeid(QString))` followed by `convert<QString>()`. -/
def Object.convertQString : Object → Option String
  | .str s => some s
  | _ => none

/-! ## DropDown (`src/DropDown.cpp`) -/

/-- The part of Qt `QComboBox` the drop-down relies on: the item texts and the current
index (`-1` when nothing is selected). -/
structure QComboBox where
  items : List String
  currentIndex : Int
deriving DecidableEq, Repr

namespace QComboBox

/-- Number of items, `QComboBox::count`. -/
def count (cb : QComboBox) : Nat := cb.items.length

/-- Removes every item, `QComboBox::clear`; no item is current afterwards. -/
def clear (_cb : QComboBox) : QComboBox := { items := [], currentIndex := -1 }

/-- Appends an item, `QComboBox::addItem`; the first item of an empty box becomes the
current one. -/
def addItem (cb : QComboBox) (text : String) : QComboBox :=
  { items := cb.items ++ [text]
    currentIndex := if cb.items.isEmpty then 0 else cb.currentIndex }

/-- Selects an item, `QComboBox::setCurrentIndex`; an index outside the items clears
the selection. -/
def setCurrentIndex (cb : QComboBox) (index : Int) : QComboBox :=
  { cb with currentIndex := if 0 ≤ index ∧ index < cb.count then index else -1 }

end QComboBox

/-- State of the `DropDown` block: the combo box, `_optionValues`, and the calls of
`__setValue` posted with `Qt::QueuedConnection` that have not run yet. -/
structure DropDown where
  _comboBox : QComboBox
  _optionValues : List Object
  queued : List Object

namespace DropDown

/-- The method `DropDown::value`. -/
def value (self : DropDown) : Object :=
  let index := self._comboBox.currentIndex
  if index < 0 then Object.null
  else if index.toNat ≥ self._optionValues.length then Object.null
  else self._optionValues.getD index.toNat Object.null

/-- The method `DropDown::setValue`: posts `__setValue(value)` to the event queue. -/
def setValue (self : DropDown) (value : Object) : DropDown :=
  { self with queued := self.queued ++ [value] }

/-- The `for` loop of `DropDown::__setOptions` over the remaining options. -/
def setOptionsLoop : List Object → DropDown → DropDown × Option Exception
  | [], self => (self, none)
  | option :: rest, self =>
    match option.convertObjectVector with
    | none => (self, some (.DataFormatException "DropDown::setOptions()" "entry is not ObjectVector"))
    | some optPair =>
      if optPair.length ≠ 2 then
        (self, some (.DataFormatException "DropDown::setOptions()"
          "entry must be ObjectVector of size == 2"))
      else
        match (optPair.getD 0 Object.null).convertQString with
        | none => (self, some (.DataFormatException "DropDown::setOptions()"
            "entry[0] must be a string"))
        | some title =>
          let value := optPair.getD 1 Object.null
          setOptionsLoop rest
            { self with
              _comboBox := self._comboBox.addItem title
              _optionValues := self._optionValues ++ [value] }

/-- The slot `DropDown::__setOptions`. -/
def __setOptions (self : DropDown) (options : List Object) : DropDown × Option Exception :=
  let oldValue := self.value
  let self := { self with _comboBox := self._comboBox.clear, _optionValues := [] }
  match setOptionsLoop options self with
  | (self, some e) => (self, some e)
  | (self, none) => (self.setValue oldValue, none)

/-- The `for` loop of `DropDown::__setValue` over the remaining indices `i`. -/
def setValueLoop (value : Object) : List Nat → DropDown → DropDown × Option Exception
  | [], self => (self, none)
  | i :: rest, self =>
    match self._optionValues[i]? with
    | none => (self, some .out_of_range)
    | some o =>
      setValueLoop value rest
        (if o.equals value then
          { self with _comboBox := self._comboBox.setCurrentIndex i }
        else self)

/-- The slot `DropDown::__setValue`. -/
def __setValue (self : DropDown) (value : Object) : DropDown × Option Exception :=
  setValueLoop value (List.range self._comboBox.count) self

/-- An option entry the loop of `__setOptions` accepts: a vector of exactly two objects
whose first object is a string. -/
def wellFormedOption : Object → Bool
  | .vec [.str _, _] => true
  | _ => false

/-- The title of a well-formed option entry. -/
def optionTitle : Object → String
  | .vec (.str s :: _) => s
  | _ => ""

/-- The value of a well-formed option entry. -/
def optionValue : Object → Object
  | .vec [_, v] => v
  | _ => Object.null

/-- The current index points at an option whose value is `value`. -/
def selected (self : DropDown) (value : Object) : Prop :=
  ∃ j : Nat, self._comboBox.currentIndex = (j : Int) ∧ self._optionValues[j]? = some value

/-- The state of a freshly constructed drop-down. -/
def init : DropDown :=
  { _comboBox := { items := [], currentIndex := -1 }, _optionValues := [], queued := [] }

/-- The default options of the block description, `[["Opt0", 42], ["Opt1", "xyz"]]`. -/
def defaultOptions : List Object :=
  [.vec [.str "Opt0", .int 42], .vec [.str "Opt1", .str "xyz"]]

/-- A drop-down that shows the default options of the block description. -/
def sample : DropDown :=
  (__setOptions init defaultOptions).1

end DropDown

/-! ## Input ports and element types -/

/-- The C++ element types named by the `doForThisType` lines of both plot views, in the
order of the lines. -/
inductive CType where
  | double | float
  | signedLongLong | unsignedLongLong
  | signedLong | unsignedLong
  | signedInt | unsignedInt
  | signedShort | unsignedShort
  | signedChar | unsignedChar
  | char
deriving DecidableEq, Repr

/-- The sequence of `doForThisType(type)` lines. -/
def doForThisTypeList : List CType :=
  [.double, .float, .signedLongLong, .unsignedLongLong, .signedLong, .unsignedLong,
   .signedInt, .unsignedInt, .signedShort, .unsignedShort, .signedChar, .unsignedChar, .char]

/-- Modelled from the spec: the numeric kinds of `Pothos::DType` (the class is declared
in the framework, not in the sources); the spec lists float64, float32, int64, uint64,
int32, uint32, int16, uint16, int8, uint8 and char. -/
inductive ElemKind where
  | float64 | float32 | int64 | uint64 | int32 | uint32 | int16 | uint16 | int8 | uint8 | char
deriving DecidableEq, Repr

/-- Modelled from the spec: `Pothos::DType`, the declared element type of a port: one of
the numeric kinds, real or complex, or any other type (a custom or unspecified one). -/
inductive DType where
  | real (k : ElemKind)
  | complex (k : ElemKind)
  | custom (name : String)
deriving DecidableEq, Repr

/-- Modelled from the spec: the numeric kind of `Pothos::DType(typeid(type))` for the
C++ types of the chains (`long` and `long long` are both 64 bits wide). -/
def ElemKind.ofCType : CType → ElemKind
  | .double => .float64
  | .float => .float32
  | .signedLongLong => .int64
  | .unsignedLongLong => .uint64
  | .signedLong => .int64
  | .unsignedLong => .uint64
  | .signedInt => .int32
  | .unsignedInt => .uint32
  | .signedShort => .int16
  | .unsignedShort => .uint16
  | .signedChar => .int8
  | .unsignedChar => .uint8
  | .char => .char

/-- The tag `Pothos::DType(typeid(type))`, or of `std::complex<type>` when `isComplex`. -/
def DType.ofTypeid (type : CType) (isComplex : Bool) : DType :=
  if isComplex then .complex (ElemKind.ofCType type) else .real (ElemKind.ofCType type)

/-- A port type is supported when it is one of the numeric kinds, real or complex. -/
def DType.supported : DType → Bool
  | .real _ => true
  | .complex _ => true
  | .custom _ => false

/-- An input port as the plot views see it: its index, its declared element type, the
number of elements available, and the scalars of its buffer in memory order, each
widened to `double` (a complex element takes two consecutive scalars). -/
structure InputPort where
  index : Nat
  dtype : DType
  elements : Nat
  buffer : List Float

/-- The element `buff[i]` of a buffer read at a real element type. -/
def InputPort.realAt (inPort : InputPort) (i : Nat) : Float := inPort.buffer.getD i 0

/-- The real part of `buff[i]` of a buffer read at a complex element type. -/
def InputPort.complexReAt (inPort : InputPort) (i : Nat) : Float := inPort.buffer.getD (2 * i) 0

/-- The imaginary part of `buff[i]` of a buffer read at a complex element type. -/
def InputPort.complexImAt (inPort : InputPort) (i : Nat) : Float :=
  inPort.buffer.getD (2 * i + 1) 0

/-- Modelled from the spec: `workInfo().minElements`, the minimum of the available
elements across all input ports in this cycle (computed by the framework). -/
def minElements : List InputPort → Nat
  | [] => 0
  | p :: ps => ps.foldl (fun m q => min m q.elements) p.elements

/-! ## A `std::map` keyed by port index -/

/-- A `std::map<size_t, V>` as the list of its entries, which `insert` keeps in key
order when it was in key order. -/
abbrev StdMap (V : Type) := List (Nat × V)

namespace StdMap

variable {V : Type}

/-- Lookup of a key, `find` or `at` (which throws on `none`). -/
def find? : StdMap V → Nat → Option V
  | [], _ => none
  | (k, v) :: m, i => if k = i then some v else find? m i

/-- Assignment `m[i] = v`: replaces the entry of key `i` or creates it. -/
def insert : StdMap V → Nat → V → StdMap V
  | [], i, v => [(i, v)]
  | (k, w) :: m, i, v =>
    if i < k then (i, v) :: (k, w) :: m
    else if i = k then (i, v) :: m
    else (k, w) :: insert m i v

end StdMap

/-! ## Curves -/

/-- The twelve Qt global colours `getDefaultCurveColor` returns. -/
inductive GlobalColor where
  | blue | green | red | cyan | magenta | yellow
  | darkBlue | darkGreen | darkRed | darkCyan | darkMagenta | darkYellow
deriving DecidableEq, Repr

/-- A `QColor`: a global colour, the invalid colour `QColor()`, or the result of
`pastelize` on a colour (kept symbolic: same hue, saturation scaled to 128, value
scaled to 64 and raised by 191). -/
inductive QColor where
  | global (c : GlobalColor)
  | invalid
  | pastel (c : QColor)
deriving DecidableEq, Repr

/-- The function `getDefaultCurveColor`. -/
def getDefaultCurveColor (whichCurve : Nat) : QColor :=
  match whichCurve % 12 with
  | 0 => .global .blue
  | 1 => .global .green
  | 2 => .global .red
  | 3 => .global .cyan
  | 4 => .global .magenta
  | 5 => .global .yellow
  | 6 => .global .darkBlue
  | 7 => .global .darkGreen
  | 8 => .global .darkRed
  | 9 => .global .darkCyan
  | 10 => .global .darkMagenta
  | 11 => .global .darkYellow
  | _ => .invalid

/-- The function `pastelize`. -/
def pastelize (c : QColor) : QColor := .pastel c

/-- A `QwtPlotCurve`: its title, whether it was attached to the plot, its pen, and the
points last given to `setSamples`. -/
structure QwtPlotCurve where
  title : String
  attached : Bool
  pen : Option QColor
  samples : List (Float × Float)

/-- The constructor `new QwtPlotCurve(title)`. -/
def QwtPlotCurve.new (title : String) : QwtPlotCurve :=
  { title := title, attached := false, pen := none, samples := [] }

/-- The method `setSamples`: the curve points are replaced wholesale. -/
def QwtPlotCurve.setSamples (curve : QwtPlotCurve) (points : List (Float × Float)) :
    QwtPlotCurve :=
  { curve with samples := points }

/-- The body of the curve setup loops: `attach(_mainPlot)` and `setPen`. -/
def QwtPlotCurve.attachWithPen (curve : QwtPlotCurve) (whichCurve : Nat) : QwtPlotCurve :=
  { curve with attached := true, pen := some (pastelize (getDefaultCurveColor whichCurve)) }

/-! ## Update scheduler (the first lines of both `work` functions) -/

/-- Rounding of a rational to the nearest integer, a tie going to the even integer. -/
def roundNearestEven (q : ℚ) : Int :=
  if q - ⌊q⌋ < 1 / 2 then ⌊q⌋
  else if 1 / 2 < q - ⌊q⌋ then ⌊q⌋ + 1
  else if ⌊q⌋ % 2 = 0 then ⌊q⌋ else ⌊q⌋ + 1

/-- The binary exponent of the unit in the last place of the `double` values around `x`:
53 significant bits, the least binade being the one of exponent -1022. -/
def ulpExponent (x : ℚ) : Int := max (Int.log 2 |x|) (-1022) - 52

/-- The `double` nearest to a rational, as the rounding of an arithmetic result in
IEEE 754 binary64 (round to nearest, ties to even).  Overflow to infinity is not
represented: a result of 2^1024 or more only reaches `castLongLong`, for which every
value from 2^63 on is out of range alike. -/
def roundToDouble (x : ℚ) : ℚ :=
  (roundNearestEven (x / (2 : ℚ) ^ ulpExponent x) : ℚ) * (2 : ℚ) ^ ulpExponent x

/-- The cast `(long long)(x)` of a `double`: truncation toward zero when the result fits
64 bits.  Out of range the cast is undefined in C++; the value is the one the x86-64
conversion instruction returns, the least `long long`. -/
def castLongLong (x : ℚ) : Int :=
  if -(2 : Int) ^ 63 ≤ (if 0 ≤ x then ⌊x⌋ else ⌈x⌉) ∧ (if 0 ≤ x then ⌊x⌋ else ⌈x⌉) < 2 ^ 63 then
    (if 0 ≤ x then ⌊x⌋ else ⌈x⌉)
  else -(2 : Int) ^ 63

/-- The value `timeBetweenUpdates`, in nanoseconds: `(long long)(1e9/_displayRate)`, the
division being the one of `double` values (a zero rate gives an infinite quotient, out
of range for the cast). -/
def timeBetweenUpdates (displayRate : ℚ) : Int :=
  if displayRate = 0 then -(2 : Int) ^ 63
  else castLongLong (roundToDouble (10 ^ 9 / displayRate))

/-- The `double` nearest to one tenth, the value of the literal `0.1`. -/
def doubleTenth : ℚ := 3602879701896397 / 2 ^ 55

/-- The flag `doUpdate`: `(now - _timeLastUpdate) > timeBetweenUpdates`, with the clock
reading and the stored time point in whole nanoseconds. -/
def doUpdate (displayRate : ℚ) (now timeLastUpdate : Int) : Bool :=
  decide (now - timeLastUpdate > timeBetweenUpdates displayRate)

/-- The two clock readings of one `work` call: `now1` enters the comparison, `now2` is
stored in `_timeLastUpdate` when the update ran. -/
structure Cycle where
  now1 : Int
  now2 : Int
deriving DecidableEq, Repr

/-- The scheduler alone, on a sequence of `work` cycles none of which throws, starting
with `_timeLastUpdate = timeLastUpdate`: the clock readings `now1` of the cycles with
`doUpdate`.  The `work` functions of both views are tied to it by the theorems
`freq_updateTimes_eq_passTimes` and `time_updateTimes_eq_passTimes`. -/
def passTimes (displayRate : ℚ) : Int → List Cycle → List Int
  | _, [] => []
  | timeLastUpdate, c :: cs =>
    if doUpdate displayRate c.now1 timeLastUpdate then
      c.now1 :: passTimes displayRate c.now2 cs
    else passTimes displayRate timeLastUpdate cs

/-- Number of executed passes whose clock reading lies in the interval `[a, a + T]`. -/
def passesIn (a : Int) (T : Nat) (times : List Int) : Nat :=
  (times.filter (fun t => decide (a ≤ t ∧ t ≤ a + T))).length

/-! ## TimeDomainPlot (`src/TimeDomainPlot/TimeDomainPlotWork.cpp`) -/

/-- The constant `pointsPerPlot`. -/
def pointsPerPlot : Nat := 1024

/-- The function template `plotCurvesFromElements<T>`: the curve with its new points. -/
def plotCurvesFromElements (inPort : InputPort) (numElems : Nat) (elemRate : Float)
    (curve : QwtPlotCurve) : QwtPlotCurve :=
  curve.setSamples
    ((List.range numElems).map fun i => (Float.ofNat i / elemRate, inPort.realAt i))

/-- The function template `plotCurvesFromComplexElements<T>`: the curves `curveRe` and
`curveIm` with their new points. -/
def plotCurvesFromComplexElements (inPort : InputPort) (numElems : Nat) (elemRate : Float)
    (curveRe curveIm : QwtPlotCurve) : QwtPlotCurve × QwtPlotCurve :=
  (curveRe.setSamples
    ((List.range numElems).map fun i => (Float.ofNat i / elemRate, inPort.complexReAt i)),
   curveIm.setSamples
    ((List.range numElems).map fun i => (Float.ofNat i / elemRate, inPort.complexImAt i)))

/-- A value of `_curveUpdaters`: `plotCurvesFromElements<type>` bound to the curve
`_curves[index][0]`, or `plotCurvesFromComplexElements<type>` bound to the curves
`_curves[index][0]` and `_curves[index][1]`. -/
inductive CurveUpdater where
  | fromElements (type : CType)
  | fromComplexElements (type : CType)
deriving DecidableEq, Repr

/-- State of a `TimeDomainPlot`, with the calls it made to its ports (`setReserve`,
`consume`, each with the port index) and the number of `replot` invocations posted. -/
structure TimeDomainPlot where
  _curves : StdMap (List QwtPlotCurve)
  _curveUpdaters : StdMap CurveUpdater
  _sampleRate : Float
  _displayRate : ℚ
  _timeLastUpdate : Int
  reserveLog : List (Nat × Nat)
  consumeLog : List (Nat × Nat)
  replots : Nat

namespace TimeDomainPlot

/-- The method `TimeDomainPlot::activate`. -/
def activate (self : TimeDomainPlot) (inputs : List InputPort) : TimeDomainPlot :=
  { self with
    reserveLog := self.reserveLog ++ inputs.map (fun inPort => (inPort.index, pointsPerPlot))
    _curves := []
    _curveUpdaters := [] }

/-- The tests of the `if (false){} else if ... else if ...` chain in order: every
`doForThisType(type)` tests `std::complex<type>` first and `type` second. -/
def typeChain : List (CType × Bool) :=
  doForThisTypeList.foldr (fun type rest => (type, true) :: (type, false) :: rest) []

/-- The body of the first loop of `setupPlotterCurves` for one port.  The chain has no
final `else`: a port whose type matches no test is skipped. -/
def setupPort (self : TimeDomainPlot) (inPort : InputPort) : TimeDomainPlot :=
  match typeChain.find? (fun tc => decide (inPort.dtype = DType.ofTypeid tc.1 tc.2)) with
  | some (type, true) =>
    { self with
      _curves := self._curves.insert inPort.index
        ((self._curves.find? inPort.index).getD [] ++
          [QwtPlotCurve.new ("Ch" ++ toString inPort.index ++ ".Re"),
           QwtPlotCurve.new ("Ch" ++ toString inPort.index ++ ".Im")])
      _curveUpdaters := self._curveUpdaters.insert inPort.index (.fromComplexElements type) }
  | some (type, false) =>
    { self with
      _curves := self._curves.insert inPort.index
        ((self._curves.find? inPort.index).getD [] ++
          [QwtPlotCurve.new ("Ch" ++ toString inPort.index)])
      _curveUpdaters := self._curveUpdaters.insert inPort.index (.fromElements type) }
  | none => self

/-- The inner loop of the continued setup: the curves of one channel. -/
def attachCurves : Nat → List QwtPlotCurve → List QwtPlotCurve
  | _, [] => []
  | whichCurve, curve :: rest =>
    curve.attachWithPen whichCurve :: attachCurves (whichCurve + 1) rest

/-- The outer loop of the continued setup over `_curves`, counting in `whichCurve`. -/
def attachAll : Nat → StdMap (List QwtPlotCurve) → StdMap (List QwtPlotCurve)
  | _, [] => []
  | whichCurve, (index, curves) :: rest =>
    (index, attachCurves whichCurve curves) :: attachAll (whichCurve + curves.length) rest

/-- The slot `TimeDomainPlot::setupPlotterCurves`.  It has no `throw` and it does not
clear `_curves` or `_curveUpdaters`. -/
def setupPlotterCurves (self : TimeDomainPlot) (inputs : List InputPort) : TimeDomainPlot :=
  let self := inputs.foldl setupPort self
  { self with _curves := attachAll 0 self._curves }

/-- A call of the bound function `_curveUpdaters.at(index)` with `(inPort, numElems,
elemRate)`.  The curves bound at setup are the first entries of `_curves[index]`. -/
def callUpdater (self : TimeDomainPlot) (updater : CurveUpdater) (inPort : InputPort)
    (numElems : Nat) (elemRate : Float) : TimeDomainPlot :=
  match updater, (self._curves.find? inPort.index).getD [] with
  | .fromElements _, curve :: rest =>
    { self with
      _curves := self._curves.insert inPort.index
        (plotCurvesFromElements inPort numElems elemRate curve :: rest) }
  | .fromComplexElements _, curveRe :: curveIm :: rest =>
    { self with
      _curves := self._curves.insert inPort.index
        ((plotCurvesFromComplexElements inPort numElems elemRate curveRe curveIm).1 ::
         (plotCurvesFromComplexElements inPort numElems elemRate curveRe curveIm).2 :: rest) }
  | _, _ => self

/-- The call `inPort->consume(nsamps)`. -/
def consume (self : TimeDomainPlot) (inPort : InputPort) (nsamps : Nat) : TimeDomainPlot :=
  { self with consumeLog := self.consumeLog ++ [(inPort.index, nsamps)] }

/-- The loop of `work` over the remaining input ports. -/
def workLoop (doUpdate : Bool) (nsamps : Nat) :
    List InputPort → TimeDomainPlot → TimeDomainPlot × Option Exception
  | [], self => (self, none)
  | inPort :: rest, self =>
    if doUpdate then
      match self._curveUpdaters.find? inPort.index with
      | none => (self, some .out_of_range)
      | some updater =>
        workLoop doUpdate nsamps rest
          ((self.callUpdater updater inPort (min nsamps pointsPerPlot) self._sampleRate).consume
            inPort nsamps)
    else workLoop doUpdate nsamps rest (self.consume inPort nsamps)

/-- The method `TimeDomainPlot::work`, with the two clock readings of the call. -/
def work (self : TimeDomainPlot) (inputs : List InputPort) (clock : Cycle) :
    TimeDomainPlot × Option Exception :=
  let self := if self._curves.isEmpty then self.setupPlotterCurves inputs else self
  let doUpdate := doUpdate self._displayRate clock.now1 self._timeLastUpdate
  let nsamps := minElements inputs
  match workLoop doUpdate nsamps inputs self with
  | (self, some e) => (self, some e)
  | (self, none) =>
    if doUpdate then
      ({ self with replots := self.replots + 1, _timeLastUpdate := clock.now2 }, none)
    else (self, none)

end TimeDomainPlot

/-! ## FreqDomainPlot (`src/FreqDomainPlot/FreqDomainPlotWork.cpp`) -/

/-- The type `Complex`, a `std::complex<double>`. -/
structure Complex where
  re : Float
  im : Float

/-- The type `CArray`, a `std::valarray<Complex>`. -/
abbrev CArray := List Complex

/-- The value `std::norm(z)`, the squared magnitude. -/
def Complex.norm (z : Complex) : Float := z.re * z.re + z.im * z.im

/-- The constant pi as a `double`. -/
def pi : Float := 3.14159265358979323846

/-- Modelled from the spec: `hann` is declared in `MyPlotterUtils.hpp`, which is not among
the sources; the window weight is `w(n) = 0.5*(1 - cos(2*pi*n/(N-1)))`. -/
def hann (n N : Nat) : Float :=
  0.5 * (1 - Float.cos (2 * pi * Float.ofNat n / (Float.ofNat N - 1)))

/-- Modelled from the spec: `fft` is declared in `MyPlotterUtils.hpp`, which is not among
the sources; it replaces the buffer by its complex discrete Fourier transform of the same
length. -/
def fft (x : CArray) : CArray :=
  (List.range x.length).map fun k =>
    (List.range x.length).foldl
      (fun (acc : Complex) n =>
        let angle := -(2 * pi * Float.ofNat (k * n)) / Float.ofNat x.length
        let xn := x.getD n ⟨0, 0⟩
        ⟨acc.re + (xn.re * Float.cos angle - xn.im * Float.sin angle),
         acc.im + (xn.re * Float.sin angle + xn.im * Float.cos angle)⟩)
      ⟨0, 0⟩

/-- A value of `_inputConverters`: `convertElementsToCArray<type>`, or
`convertElementsToCArray<std::complex<type>>` when `isComplex`. -/
structure InputConverter where
  type : CType
  isComplex : Bool
deriving DecidableEq, Repr

/-- The function template `convertElementsToCArray`: `bins[i] = toComplex(buff[i])` for
every `i < bins.size()`; `toComplex` maps a real `x` to `(x, 0)` and keeps a complex. -/
def convertElementsToCArray (isComplex : Bool) (inPort : InputPort) (bins : CArray) : CArray :=
  (List.range bins.length).map fun i =>
    if isComplex then ⟨inPort.complexReAt i, inPort.complexImAt i⟩
    else ⟨inPort.realAt i, 0⟩

/-- The statement `std::swap(a[i], a[j])`. -/
def swapAt {α : Type} (a : List α) (i j : Nat) : List α :=
  match a[i]?, a[j]? with
  | some x, some y => (a.set i y).set j x
  | _, _ => a

/-- The bin reorder loop of `updateCurve`: `swap(powerBins[i], powerBins[i + size/2])`
for every `i < size/2`. -/
def binReorder {α : Type} (powerBins : List α) : List α :=
  (List.range (powerBins.length / 2)).foldl
    (fun bins i => swapAt bins i (i + powerBins.length / 2)) powerBins

/-- Modelled from the spec: `DType::toString`, the name of an element type. -/
def DType.toString : DType → String
  | .real k => reprStr k
  | .complex k => "complex_" ++ reprStr k
  | .custom name => name

/-- State of a `FreqDomainPlot`, with the `consume` calls it made, the number of
`replot` invocations and the number of `installLegend` invocations posted. -/
structure FreqDomainPlot where
  _curves : StdMap QwtPlotCurve
  _inputConverters : StdMap InputConverter
  _numFFTBins : Nat
  _sampleRateWoAxisUnits : Float
  _displayRate : ℚ
  _timeLastUpdate : Int
  legendInstalls : Nat
  consumeLog : List (Nat × Nat)
  replots : Nat

namespace FreqDomainPlot

/-- The tests of the `if (false){} else if ... else throw` chain in order: every
`doForThisType(type)` tests `type` first and `std::complex<type>` second. -/
def typeChain : List (CType × Bool) :=
  doForThisTypeList.foldr (fun type rest => (type, false) :: (type, true) :: rest) []

/-- The first loop of `setupPlotterCurves` over the remaining input ports. -/
def setupLoop : List InputPort → FreqDomainPlot → FreqDomainPlot × Option Exception
  | [], self => (self, none)
  | inPort :: rest, self =>
    match typeChain.find? (fun tc => decide (inPort.dtype = DType.ofTypeid tc.1 tc.2)) with
    | some (type, isComplex) =>
      setupLoop rest
        { self with
          _curves := self._curves.insert inPort.index
            (QwtPlotCurve.new ("Ch" ++ toString inPort.index))
          _inputConverters := self._inputConverters.insert inPort.index ⟨type, isComplex⟩ }
    | none =>
      (self, some (.InvalidArgumentException
        ("FreqDomainPlot::setupPlotterCurves(" ++ inPort.dtype.toString ++ ")")
        "dtype not supported"))

/-- The loop of the continued setup over `_curves`, counting in `whichCurve`. -/
def attachAll : Nat → StdMap QwtPlotCurve → StdMap QwtPlotCurve
  | _, [] => []
  | whichCurve, (index, curve) :: rest =>
    (index, curve.attachWithPen whichCurve) :: attachAll (whichCurve + 1) rest

/-- The method `FreqDomainPlot::setupPlotterCurves`. -/
def setupPlotterCurves (self : FreqDomainPlot) (inputs : List InputPort) :
    FreqDomainPlot × Option Exception :=
  let self := { self with _curves := [], _inputConverters := [] }
  match setupLoop inputs self with
  | (self, some e) => (self, some e)
  | (self, none) =>
    let whichCurve := self._curves.length
    let self := { self with _curves := attachAll 0 self._curves }
    (if whichCurve > 1 then { self with legendInstalls := self.legendInstalls + 1 } else self,
     none)

/-- The points `updateCurve` computes from the converted bins: windowing, `fft`, power
calculation, bin reorder, and the frequency of every bin. -/
def curvePoints (sampleRateWoAxisUnits : Float) (converted : CArray) : List (Float × Float) :=
  let size := converted.length
  let windowPower :=
    (List.range size).foldl (fun acc n => acc + hann n size * hann n size) 0 / Float.ofNat size
  let windowed : CArray := (List.range size).map fun n =>
    let w_n := hann n size
    let bin := converted.getD n ⟨0, 0⟩
    ⟨bin.re * w_n, bin.im * w_n⟩
  let fftBins := fft windowed
  let powerBins := (List.range fftBins.length).map fun i =>
    10 * Float.log10 (fftBins.getD i ⟨0, 0⟩).norm
      - 20 * Float.log10 (Float.ofNat fftBins.length)
      - 10 * Float.log10 windowPower
  let powerBins := binReorder powerBins
  (List.range powerBins.length).map fun i =>
    ((sampleRateWoAxisUnits * Float.ofNat i)
        / Float.ofNat ((fftBins.length + 2 ^ 64 - 1) % 2 ^ 64)
      - sampleRateWoAxisUnits / 2,
     powerBins.getD i 0)

/-- The method `FreqDomainPlot::updateCurve`. -/
def updateCurve (self : FreqDomainPlot) (inPort : InputPort) :
    FreqDomainPlot × Option Exception :=
  let fftBins : CArray := List.replicate (min inPort.elements self._numFFTBins) ⟨0, 0⟩
  match self._inputConverters.find? inPort.index with
  | none => (self, some .out_of_range)
  | some converter =>
    let fftBins := convertElementsToCArray converter.isComplex inPort fftBins
    let points := curvePoints self._sampleRateWoAxisUnits fftBins
    match self._curves.find? inPort.index with
    | none => (self, some .out_of_range)
    | some curve =>
      ({ self with _curves := self._curves.insert inPort.index (curve.setSamples points) }, none)

/-- The call `inPort->consume(nsamps)`. -/
def consume (self : FreqDomainPlot) (inPort : InputPort) (nsamps : Nat) : FreqDomainPlot :=
  { self with consumeLog := self.consumeLog ++ [(inPort.index, nsamps)] }

/-- The loop of `work` over the remaining input ports. -/
def workLoop (doUpdate : Bool) (nsamps : Nat) :
    List InputPort → FreqDomainPlot → FreqDomainPlot × Option Exception
  | [], self => (self, none)
  | inPort :: rest, self =>
    if doUpdate then
      match self.updateCurve inPort with
      | (self, some e) => (self, some e)
      | (self, none) => workLoop doUpdate nsamps rest (self.consume inPort nsamps)
    else workLoop doUpdate nsamps rest (self.consume inPort nsamps)

/-- The method `FreqDomainPlot::work`, with the two clock readings of the call. -/
def work (self : FreqDomainPlot) (inputs : List InputPort) (clock : Cycle) :
    FreqDomainPlot × Option Exception :=
  let doUpdate := doUpdate self._displayRate clock.now1 self._timeLastUpdate
  let nsamps := minElements inputs
  match workLoop doUpdate nsamps inputs self with
  | (self, some e) => (self, some e)
  | (self, none) =>
    if doUpdate then
      ({ self with replots := self.replots + 1, _timeLastUpdate := clock.now2 }, none)
    else (self, none)

end FreqDomainPlot

/-! ## Predicates and sample data used in the statements -/

/-- The titles of the curves one run of the time view setup creates for a port. -/
def TimeDomainPlot.curveTitles (inPort : InputPort) : List String :=
  match inPort.dtype with
  | .real _ => ["Ch" ++ toString inPort.index]
  | .complex _ => ["Ch" ++ toString inPort.index ++ ".Re", "Ch" ++ toString inPort.index ++ ".Im"]
  | .custom _ => []

/-- The points `(i/elemRate, sample[i])` for `i < numElems`, one list per curve of the
channel: one list for a real channel, the real parts and the imaginary parts for a
complex channel. -/
def TimeDomainPlot.channelPoints (inPort : InputPort) (numElems : Nat) (elemRate : Float) :
    List (List (Float × Float)) :=
  match inPort.dtype with
  | .real _ =>
    [(List.range numElems).map fun i => (Float.ofNat i / elemRate, inPort.realAt i)]
  | .complex _ =>
    [(List.range numElems).map fun i => (Float.ofNat i / elemRate, inPort.complexReAt i),
     (List.range numElems).map fun i => (Float.ofNat i / elemRate, inPort.complexImAt i)]
  | .custom _ => []

/-- Whether an updater is the complex one. -/
def CurveUpdater.isComplex : CurveUpdater → Bool
  | .fromElements _ => false
  | .fromComplexElements _ => true

/-- Whether an element type is one of the complex kinds. -/
def DType.isComplex : DType → Bool
  | .complex _ => true
  | _ => false

/-- The registry entries of a port as one run of the setup on an empty registry leaves
them: one curve and a real updater, or two curves and a complex updater. -/
def TimeDomainPlot.Bound (self : TimeDomainPlot) (inPort : InputPort) : Prop :=
  match inPort.dtype with
  | .real _ => ∃ type curve,
      self._curveUpdaters.find? inPort.index = some (.fromElements type) ∧
      self._curves.find? inPort.index = some [curve]
  | .complex _ => ∃ type curveRe curveIm,
      self._curveUpdaters.find? inPort.index = some (.fromComplexElements type) ∧
      self._curves.find? inPort.index = some [curveRe, curveIm]
  | .custom _ => False

/-- The states of a time view in which `work` finds its registry in order: either the
registry is empty, as `activate` leaves it, and every port has a supported type, or every
port has the entries of one setup run. -/
def TimeDomainPlot.Ready (self : TimeDomainPlot) (inputs : List InputPort) : Prop :=
  (self._curves = [] ∧ ∀ inPort ∈ inputs, inPort.dtype.supported = true) ∨
  (self._curves ≠ [] ∧ ∀ inPort ∈ inputs, TimeDomainPlot.Bound self inPort)

/-- A port of the frequency view has a converter and a curve registered. -/
def FreqDomainPlot.Registered (self : FreqDomainPlot) (inPort : InputPort) : Prop :=
  (self._inputConverters.find? inPort.index).isSome = true ∧
  (self._curves.find? inPort.index).isSome = true

/-- The clock readings `now1` of the cycles of a sequence of `work` calls of the
frequency view, on the same ports, in which `work` ran the update to its end and posted
the replot. -/
def FreqDomainPlot.updateTimes (inputs : List InputPort) :
    List Cycle → FreqDomainPlot → List Int
  | [], _ => []
  | clock :: rest, self =>
    if (self.work inputs clock).1.replots = self.replots then
      FreqDomainPlot.updateTimes inputs rest (self.work inputs clock).1
    else clock.now1 :: FreqDomainPlot.updateTimes inputs rest (self.work inputs clock).1

/-- The clock readings `now1` of the cycles of a sequence of `work` calls of the time
view, on the same ports, in which `work` ran the update to its end and posted the
replot. -/
def TimeDomainPlot.updateTimes (inputs : List InputPort) :
    List Cycle → TimeDomainPlot → List Int
  | [], _ => []
  | clock :: rest, self =>
    if (self.work inputs clock).1.replots = self.replots then
      TimeDomainPlot.updateTimes inputs rest (self.work inputs clock).1
    else clock.now1 :: TimeDomainPlot.updateTimes inputs rest (self.work inputs clock).1

/-- A channel 0 of type int32 with three elements available. -/
def ch0 : InputPort := { index := 0, dtype := .real .int32, elements := 3, buffer := [1, 2, 3] }

/-- A channel 1 of type complex float32 with one element available. -/
def ch1 : InputPort := { index := 1, dtype := .complex .float32, elements := 1, buffer := [4, 5] }

/-- A channel 0 of a type outside the supported set. -/
def chCustom : InputPort :=
  { index := 0, dtype := .custom "custom", elements := 2, buffer := [1, 2] }

/-- A channel 0 of type int32 with no element available. -/
def chEmpty : InputPort := { index := 0, dtype := .real .int32, elements := 0, buffer := [] }

/-- A channel 0 of type int32 with one element available. -/
def chOne : InputPort := { index := 0, dtype := .real .int32, elements := 1, buffer := [7] }

/-- A time view with display rate 10 that was never updated, its registry empty. -/
def TimeDomainPlot.fresh : TimeDomainPlot :=
  { _curves := [], _curveUpdaters := [], _sampleRate := 2, _displayRate := 10,
    _timeLastUpdate := 0, reserveLog := [], consumeLog := [], replots := 0 }

/-- A frequency view with display rate 10 that was never updated, one channel
registered whose curve shows one point. -/
def FreqDomainPlot.fresh : FreqDomainPlot :=
  { _curves := [(0, (QwtPlotCurve.new "Ch0").setSamples [(1, 2)])],
    _inputConverters := [(0, ⟨.signedInt, false⟩)],
    _numFFTBins := 4, _sampleRateWoAxisUnits := 8, _displayRate := 10,
    _timeLastUpdate := 0, legendInstalls := 0, consumeLog := [], replots := 0 }

/-- The frequency view `fresh` with the display rate set to the literal `0.1`. -/
def FreqDomainPlot.slow : FreqDomainPlot := { FreqDomainPlot.fresh with _displayRate := doubleTenth }

/-- The frequency view `fresh` with the display rate set to 2^-34, a `double`. -/
def FreqDomainPlot.verySlow : FreqDomainPlot :=
  { FreqDomainPlot.fresh with _displayRate := 1 / 2 ^ 34 }

/-- A clock that reads exactly 10 s at the comparison of `work`. -/
def clockTenSeconds : Cycle := { now1 := 10000000000, now2 := 10000000001 }

/-- A clock that reads 0.15 s at the comparison of `work`. -/
def clockLate : Cycle := { now1 := 150000000, now2 := 150000001 }

/-- A clock that reads 0.05 s at the comparison of `work`. -/
def clockEarly : Cycle := { now1 := 50000000, now2 := 50000001 }

/-! # Proofs -/

/-! ## Proofs: Object equality -/

theorem Object.equals_iff : ∀ a b : Object, Object.equals a b = true ↔ a = b := by
  intro a
  induction a using Object.rec
    (motive_2 := fun xs => ∀ ys, Object.equalsAll xs ys = true ↔ xs = ys) with
  | null => intro b; cases b <;> simp [Object.equals]
  | int n => intro b; cases b <;> simp [Object.equals]
  | str s => intro b; cases b <;> simp [Object.equals]
  | vec xs ih => intro b; cases b <;> simp [Object.equals, ih]
  | nil => rename_i ys; cases ys <;> simp [Object.equalsAll]
  | cons x xs ihx ihxs => rename_i ys; cases ys <;> simp [Object.equalsAll, ihx, ihxs]

/-! ## Proofs: DropDown -/

namespace DropDown

theorem wellFormedOption_iff (o : Object) :
    wellFormedOption o = true ↔ ∃ s v, o = .vec [.str s, v] := by
  constructor
  · intro h
    match o, h with
    | .vec [.str s, v], _ => exact ⟨s, v, rfl⟩
  · rintro ⟨s, v, rfl⟩
    rfl

theorem setOptionsLoop_wellFormed (o : Object) (rest : List Object) (self : DropDown)
    (h : wellFormedOption o = true) :
    setOptionsLoop (o :: rest) self =
      setOptionsLoop rest
        { self with
          _comboBox := self._comboBox.addItem (optionTitle o)
          _optionValues := self._optionValues ++ [optionValue o] } := by
  obtain ⟨s, v, rfl⟩ := (wellFormedOption_iff o).1 h
  simp [setOptionsLoop, Object.convertObjectVector, Object.convertQString, optionTitle,
    optionValue]

theorem setOptionsLoop_malformed (o : Object) (rest : List Object) (self : DropDown)
    (h : wellFormedOption o = false) :
    ∃ msg, setOptionsLoop (o :: rest) self =
      (self, some (.DataFormatException "DropDown::setOptions()" msg)) := by
  cases o with
  | null => exact ⟨_, rfl⟩
  | int n => exact ⟨_, rfl⟩
  | str s => exact ⟨_, rfl⟩
  | vec xs =>
    by_cases hlen : xs.length = 2
    · match xs, hlen with
      | [a, b], _ =>
        cases a with
        | str s => simp [wellFormedOption] at h
        | null => exact ⟨"entry[0] must be a string", by
            simp [setOptionsLoop, Object.convertObjectVector, Object.convertQString]⟩
        | int n => exact ⟨"entry[0] must be a string", by
            simp [setOptionsLoop, Object.convertObjectVector, Object.convertQString]⟩
        | vec ys => exact ⟨"entry[0] must be a string", by
            simp [setOptionsLoop, Object.convertObjectVector, Object.convertQString]⟩
    · exact ⟨"entry must be ObjectVector of size == 2", by
        simp [setOptionsLoop, Object.convertObjectVector, hlen]⟩

end DropDown

namespace DropDown

/-- The combo box and `_optionValues` grow together inside `__setOptions`. -/
theorem setOptionsLoop_count : ∀ (options : List Object) (self : DropDown),
    self._comboBox.count = self._optionValues.length →
    (setOptionsLoop options self).1._comboBox.count =
      (setOptionsLoop options self).1._optionValues.length := by
  intro options
  induction options with
  | nil => intro self h; simpa [setOptionsLoop] using h
  | cons o rest ih =>
    intro self h
    cases hwf : wellFormedOption o with
    | true =>
      rw [setOptionsLoop_wellFormed o rest self hwf]
      apply ih
      simp [QComboBox.count, QComboBox.addItem] at h ⊢
      exact h
    | false =>
      obtain ⟨msg, hmsg⟩ := setOptionsLoop_malformed o rest self hwf
      rw [hmsg]
      exact h

/-- What the loop of `__setOptions` leaves behind when an entry is malformed: the
entries in front of the first malformed one, appended to what was there. -/
theorem setOptionsLoop_reject : ∀ (options : List Object) (self : DropDown),
    (∃ o ∈ options, wellFormedOption o = false) →
    (∃ msg, (setOptionsLoop options self).2 =
        some (.DataFormatException "DropDown::setOptions()" msg)) ∧
    (setOptionsLoop options self).1._comboBox.items =
      self._comboBox.items ++ (options.takeWhile wellFormedOption).map optionTitle ∧
    (setOptionsLoop options self).1._optionValues =
      self._optionValues ++ (options.takeWhile wellFormedOption).map optionValue ∧
    (setOptionsLoop options self).1.queued = self.queued := by
  intro options
  induction options with
  | nil => intro self h; simp at h
  | cons o rest ih =>
    intro self h
    cases hwf : wellFormedOption o with
    | true =>
      have hrest : ∃ o ∈ rest, wellFormedOption o = false := by
        obtain ⟨x, hx, hxf⟩ := h
        rcases List.mem_cons.1 hx with rfl | hx
        · rw [hwf] at hxf; exact absurd hxf (by simp)
        · exact ⟨x, hx, hxf⟩
      rw [setOptionsLoop_wellFormed o rest self hwf]
      obtain ⟨h1, h2, h3, h4⟩ := ih _ hrest
      refine ⟨h1, ?_, ?_, h4⟩
      · rw [h2]; simp [QComboBox.addItem, List.takeWhile_cons, hwf]
      · rw [h3]; simp [List.takeWhile_cons, hwf]
    | false =>
      obtain ⟨msg, hmsg⟩ := setOptionsLoop_malformed o rest self hwf
      rw [hmsg]
      exact ⟨⟨msg, rfl⟩, by simp [List.takeWhile_cons, hwf], by simp [List.takeWhile_cons, hwf], rfl⟩

/-- The loop of `__setOptions` on well-formed entries only. -/
theorem setOptionsLoop_accept : ∀ (options : List Object) (self : DropDown),
    (setOptionsLoop options self).2 = none →
    (∀ o ∈ options, wellFormedOption o = true) ∧
    (setOptionsLoop options self).1._optionValues =
      self._optionValues ++ options.map optionValue ∧
    (setOptionsLoop options self).1._comboBox.items =
      self._comboBox.items ++ options.map optionTitle := by
  intro options
  induction options with
  | nil => intro self _; simp [setOptionsLoop]
  | cons o rest ih =>
    intro self h
    cases hwf : wellFormedOption o with
    | true =>
      rw [setOptionsLoop_wellFormed o rest self hwf] at h ⊢
      obtain ⟨h1, h2, h3⟩ := ih _ h
      refine ⟨?_, ?_, ?_⟩
      · intro x hx
        rcases List.mem_cons.1 hx with rfl | hx
        · exact hwf
        · exact h1 x hx
      · rw [h2]; simp
      · rw [h3]; simp [QComboBox.addItem]
    | false =>
      obtain ⟨msg, hmsg⟩ := setOptionsLoop_malformed o rest self hwf
      rw [hmsg] at h
      simp at h

theorem value_of_selected (self : DropDown) (v : Object) (h : selected self v) :
    self.value = v := by
  obtain ⟨j, hj, hv⟩ := h
  have hlt : j < self._optionValues.length := by
    by_contra hge
    rw [List.getElem?_eq_none (by omega)] at hv
    simp at hv
  unfold value
  simp only [hj]
  have h0 : ¬ ((j : Int) < 0) := by omega
  simp only [h0, if_false, Int.toNat_ofNat]
  have h1 : ¬ (j ≥ self._optionValues.length) := by omega
  simp only [h1, if_false]
  rw [List.getD_eq_getElem?_getD, hv]
  rfl

theorem setValueLoop_spec (v : Object) : ∀ (is : List Nat) (self : DropDown),
    (∀ i ∈ is, i < self._optionValues.length) →
    self._comboBox.count = self._optionValues.length →
    (setValueLoop v is self).2 = none ∧
    ((∀ i ∈ is, self._optionValues[i]? ≠ some v) → (setValueLoop v is self).1 = self) ∧
    (((∃ i ∈ is, self._optionValues[i]? = some v) ∨ selected self v) →
      selected (setValueLoop v is self).1 v) := by
  intro is
  induction is with
  | nil =>
    intro self _ _
    refine ⟨rfl, fun _ => rfl, ?_⟩
    rintro (⟨i, hi, _⟩ | h)
    · simp at hi
    · exact h
  | cons i rest ih =>
    intro self hlt hcount
    have hi : i < self._optionValues.length := hlt i (List.mem_cons_self _ _)
    have hget : self._optionValues[i]? = some self._optionValues[i] :=
      List.getElem?_eq_getElem hi
    have hrest : ∀ k ∈ rest, k < self._optionValues.length :=
      fun k hk => hlt k (List.mem_cons_of_mem _ hk)
    by_cases heq : self._optionValues[i] = v
    · have hstep : setValueLoop v (i :: rest) self =
          setValueLoop v rest { self with _comboBox := self._comboBox.setCurrentIndex i } := by
        simp [setValueLoop, hget, (Object.equals_iff _ _).2 heq]
      rw [hstep]
      have hsel : selected { self with _comboBox := self._comboBox.setCurrentIndex i } v := by
        refine ⟨i, ?_, ?_⟩
        · have : (i : Int) < self._comboBox.count := by rw [hcount]; exact_mod_cast hi
          simp [QComboBox.setCurrentIndex, this]
        · simp [hget, heq]
      obtain ⟨h1, _, h3⟩ := ih { self with _comboBox := self._comboBox.setCurrentIndex i }
        hrest (by simpa [QComboBox.setCurrentIndex, QComboBox.count] using hcount)
      refine ⟨h1, ?_, fun _ => h3 (Or.inr hsel)⟩
      intro hno
      exact absurd (by rw [hget, heq]) (hno i (List.mem_cons_self _ _))
    · have hne : Object.equals self._optionValues[i] v = false := by
        cases hb : Object.equals self._optionValues[i] v with
        | false => rfl
        | true => exact absurd ((Object.equals_iff _ _).1 hb) heq
      have hstep : setValueLoop v (i :: rest) self = setValueLoop v rest self := by
        simp [setValueLoop, hget, hne]
      rw [hstep]
      obtain ⟨h1, h2, h3⟩ := ih self hrest hcount
      refine ⟨h1, fun hno => h2 (fun k hk => hno k (List.mem_cons_of_mem _ hk)), ?_⟩
      rintro (⟨k, hk, hkv⟩ | h)
      · rcases List.mem_cons.1 hk with rfl | hk
        · rw [hget] at hkv
          exact absurd (Option.some.inj hkv) heq
        · exact h3 (Or.inl ⟨k, hk, hkv⟩)
      · exact h3 (Or.inr h)

end DropDown

/-! ### Claims about the drop-down -/

namespace DropDown

/-- C2, as stated, fails: with the default options active, `__setOptions` on a list
whose second entry is not a vector throws the format error, and afterwards the combo
box and `_optionValues` hold the first new entry instead of the two previous options. -/
theorem setOptions_malformed_drops_previous :
    (∃ o ∈ [Object.vec [.str "A", .int 1], Object.int 7], wellFormedOption o = false) ∧
    (__setOptions sample [.vec [.str "A", .int 1], .int 7]).2 =
      some (.DataFormatException "DropDown::setOptions()" "entry is not ObjectVector") ∧
    sample._comboBox.items = ["Opt0", "Opt1"] ∧
    sample._optionValues = [.int 42, .str "xyz"] ∧
    (__setOptions sample [.vec [.str "A", .int 1], .int 7]).1._comboBox.items = ["A"] ∧
    (__setOptions sample [.vec [.str "A", .int 1], .int 7]).1._optionValues = [.int 1] :=
  ⟨⟨.int 7, by simp, rfl⟩, rfl, rfl, rfl, rfl, rfl⟩

/-- C2, amended: for every state and every new options vector with a malformed entry,
`__setOptions` fails with the format error; the previous items and values are discarded,
and the combo box and `_optionValues` hold exactly the titles and values of the entries
in front of the first malformed one; no `__setValue` call is posted. -/
theorem setOptions_malformed_keeps_leading (self : DropDown) (options : List Object)
    (hbad : ∃ o ∈ options, wellFormedOption o = false) :
    (∃ msg, (__setOptions self options).2 =
        some (.DataFormatException "DropDown::setOptions()" msg)) ∧
    (__setOptions self options).1._comboBox.items =
      (options.takeWhile wellFormedOption).map optionTitle ∧
    (__setOptions self options).1._optionValues =
      (options.takeWhile wellFormedOption).map optionValue ∧
    (__setOptions self options).1.queued = self.queued := by
  obtain ⟨⟨msg, h1⟩, h2, h3, h4⟩ := setOptionsLoop_reject options
    { self with _comboBox := self._comboBox.clear, _optionValues := [] } hbad
  have hrun : __setOptions self options =
      setOptionsLoop options
        { self with _comboBox := self._comboBox.clear, _optionValues := [] } := by
    cases hr : setOptionsLoop options
      { self with _comboBox := self._comboBox.clear, _optionValues := [] } with
    | mk st e =>
      rw [hr] at h1
      simp only at h1
      subst h1
      simp only [__setOptions, hr]
  rw [hrun]
  refine ⟨⟨msg, h1⟩, ?_, ?_, h4⟩
  · simpa [QComboBox.clear] using h2
  · simpa using h3

/-- Witness for C2 amended: the default options are active, the new list is one
well-formed entry followed by a number. -/
theorem setOptions_malformed_keeps_leading_witness :
    (__setOptions sample [.vec [.str "A", .int 1], .int 7]).1._optionValues =
      ([Object.vec [.str "A", .int 1], Object.int 7].takeWhile wellFormedOption).map
        optionValue :=
  (setOptions_malformed_keeps_leading sample [.vec [.str "A", .int 1], .int 7]
    ⟨.int 7, by simp, rfl⟩).2.2.1

/-- The loop of `__setValue` changes nothing but the current index. -/
theorem setValueLoop_keeps (v : Object) : ∀ (is : List Nat) (self : DropDown),
    (setValueLoop v is self).1._optionValues = self._optionValues ∧
    (setValueLoop v is self).1._comboBox.items = self._comboBox.items ∧
    (setValueLoop v is self).1.queued = self.queued := by
  intro is
  induction is with
  | nil => intro self; exact ⟨rfl, rfl, rfl⟩
  | cons i rest ih =>
    intro self
    cases hget : self._optionValues[i]? with
    | none => simp [setValueLoop, hget]
    | some o =>
      simp only [setValueLoop, hget]
      split_ifs
      · obtain ⟨h1, h2, h3⟩ := ih { self with _comboBox := self._comboBox.setCurrentIndex i }
        exact ⟨h1, h2, h3⟩
      · exact ih self

/-- An accepted `__setOptions` leaves the combo box and `_optionValues` showing the
option list, and `__setValue` keeps them so. -/
theorem setOptions_shows_options (self : DropDown) (options : List Object)
    (hvalid : (__setOptions self options).2 = none) :
    (__setOptions self options).1._comboBox.items = options.map optionTitle ∧
    (__setOptions self options).1._optionValues = options.map optionValue ∧
    ∀ v, (__setValue (__setOptions self options).1 v).1._comboBox.items =
        options.map optionTitle ∧
      (__setValue (__setOptions self options).1 v).1._optionValues =
        options.map optionValue := by
  have hrun : ∃ st, setOptionsLoop options
      { self with _comboBox := self._comboBox.clear, _optionValues := [] } = (st, none) ∧
      (__setOptions self options).1 = st.setValue self.value := by
    cases hr : setOptionsLoop options
      { self with _comboBox := self._comboBox.clear, _optionValues := [] } with
    | mk st e =>
      cases e with
      | none => exact ⟨st, rfl, by simp only [__setOptions, hr]⟩
      | some e => simp [__setOptions, hr] at hvalid
  obtain ⟨st, hst, hs⟩ := hrun
  have hacc := setOptionsLoop_accept options
    { self with _comboBox := self._comboBox.clear, _optionValues := [] } (by rw [hst])
  rw [hst] at hacc
  obtain ⟨_, hvals, hitems⟩ := hacc
  have h1 : (__setOptions self options).1._comboBox.items = options.map optionTitle := by
    rw [hs]; simpa [setValue, QComboBox.clear] using hitems
  have h2 : (__setOptions self options).1._optionValues = options.map optionValue := by
    rw [hs]; simpa [setValue] using hvals
  refine ⟨h1, h2, fun v => ?_⟩
  obtain ⟨g1, g2, _⟩ := setValueLoop_keeps v
    (List.range (__setOptions self options).1._comboBox.count) (__setOptions self options).1
  exact ⟨by rw [← h1]; exact g2, by rw [← h2]; exact g1⟩

/-- C7: in every state in which the combo box and `_optionValues` show an option list
(`__setOptions` leaves such a state when it accepts the list, and `__setValue` keeps
it), whatever the current selection is, `__setValue(v)` returns normally; when `v` is
the value of some option the current value `value()` is `v` afterwards, and when `v` is
the value of no option the state, the current selection included, is unchanged. -/
theorem setValue_selects_matching_option (self : DropDown) (options : List Object)
    (v : Object) (hitems : self._comboBox.items = options.map optionTitle)
    (hvalues : self._optionValues = options.map optionValue) :
    (__setValue self v).2 = none ∧
    (v ∈ options.map optionValue → (__setValue self v).1.value = v) ∧
    (v ∉ options.map optionValue → (__setValue self v).1 = self) := by
  have hcnt : self._comboBox.count = self._optionValues.length := by
    simp [QComboBox.count, hitems, hvalues]
  obtain ⟨h1, h2, h3⟩ := setValueLoop_spec v (List.range self._comboBox.count) self
    (by intro i hi; rw [← hcnt]; exact List.mem_range.1 hi) hcnt
  refine ⟨h1, ?_, ?_⟩
  · intro hv
    rw [← hvalues] at hv
    obtain ⟨n, hn, hget⟩ := List.mem_iff_getElem.1 hv
    apply value_of_selected
    apply h3
    refine Or.inl ⟨n, ?_, ?_⟩
    · rw [hcnt]; exact List.mem_range.2 hn
    · rw [List.getElem?_eq_getElem hn, hget]
  · intro hv
    rw [← hvalues] at hv
    apply h2
    intro i _ hget
    exact hv (List.mem_iff_getElem?.2 ⟨i, hget⟩)

/-- Witness for C7: options `[("Opt0",42),("Opt1","xyz")]`, then value `"xyz"` gives the
current value `"xyz"`; with `"xyz"` selected, a value absent from the options leaves the
selection at the second option. -/
theorem setValue_selects_matching_option_witness :
    (__setValue sample (.str "xyz")).1.value = .str "xyz" ∧
    (__setValue sample (.str "xyz")).1._comboBox.currentIndex = 1 ∧
    (__setValue (__setValue sample (.str "xyz")).1 (.int 7)).1 =
      (__setValue sample (.str "xyz")).1 :=
  ⟨(setValue_selects_matching_option sample defaultOptions (.str "xyz") rfl rfl).2.1
      (by simp [defaultOptions, optionValue]),
   rfl,
   (setValue_selects_matching_option (__setValue sample (.str "xyz")).1 defaultOptions
      (.int 7) rfl rfl).2.2 (by simp [defaultOptions, optionValue])⟩

end DropDown

/-! ## Proofs: the bin reorder -/

section BinReorder

variable {α : Type}

theorem swapAt_length (a : List α) (i j : Nat) : (swapAt a i j).length = a.length := by
  unfold swapAt
  split <;> simp

theorem swapAt_getElem? (a : List α) (i j n : Nat) (hi : i < a.length) (hj : j < a.length) :
    (swapAt a i j)[n]? = if n = j then a[i]? else if n = i then a[j]? else a[n]? := by
  unfold swapAt
  rw [List.getElem?_eq_getElem hi, List.getElem?_eq_getElem hj]
  simp only [List.getElem?_set, List.length_set]
  by_cases h1 : n = j
  · subst h1; simp [hj]
  · by_cases h2 : n = i
    · subst h2; simp [h1, hi, Ne.symm h1]
    · simp [h1, h2, Ne.symm h1, Ne.symm h2]

/-- The first `m` rounds of the bin reorder loop on an array with half size `k`. -/
theorem reorderLoop_spec (l : List α) (k : Nat) (hk : 2 * k ≤ l.length) :
    ∀ m, m ≤ k →
      ((List.range m).foldl (fun bins i => swapAt bins i (i + k)) l).length = l.length ∧
      ∀ n, ((List.range m).foldl (fun bins i => swapAt bins i (i + k)) l)[n]? =
        if n < m then l[n + k]? else if k ≤ n ∧ n < k + m then l[n - k]? else l[n]? := by
  intro m
  induction m with
  | zero =>
    intro _
    refine ⟨rfl, fun n => ?_⟩
    simp only [List.range_zero, List.foldl_nil]
    split_ifs <;> first | rfl | (exfalso; omega)
  | succ m ih =>
    intro hm
    obtain ⟨hlen, hget⟩ := ih (by omega)
    rw [List.range_succ, List.foldl_append]
    simp only [List.foldl_cons, List.foldl_nil]
    refine ⟨by rw [swapAt_length, hlen], fun n => ?_⟩
    rw [swapAt_getElem? _ _ _ _ (by rw [hlen]; omega) (by rw [hlen]; omega)]
    rw [hget m, hget (m + k), hget n]
    split_ifs <;> first | rfl | (exfalso; omega) | (congr 1; omega)

theorem binReorder_length (l : List α) : (binReorder l).length = l.length :=
  (reorderLoop_spec l (l.length / 2) (by omega) (l.length / 2) (le_refl _)).1

theorem binReorder_getElem? (l : List α) (n : Nat) :
    (binReorder l)[n]? =
      if n < l.length / 2 then l[n + l.length / 2]?
      else if n < 2 * (l.length / 2) then l[n - l.length / 2]? else l[n]? := by
  have h := (reorderLoop_spec l (l.length / 2) (by omega) (l.length / 2) (le_refl _)).2 n
  unfold binReorder
  rw [h]
  split_ifs <;> first | rfl | (exfalso; omega)

/-- C10: the bin reorder of `FreqDomainPlot::updateCurve` is an involution: on every
array of power bins, of even or odd length, applying the reorder twice returns the
original array. -/
theorem binReorder_involution (powerBins : List α) :
    binReorder (binReorder powerBins) = powerBins := by
  apply List.ext_getElem?
  intro n
  simp only [binReorder_getElem?, binReorder_length]
  split_ifs <;> first | rfl | (exfalso; omega) | (congr 1; omega)

end BinReorder

/-! ## Proofs: the update scheduler -/

theorem roundNearestEven_eq (q : ℚ) (n : Int) (h : |q - n| < 1 / 2) :
    roundNearestEven q = n := by
  rw [abs_lt] at h
  obtain ⟨h1, h2⟩ := h
  unfold roundNearestEven
  by_cases hq : (n : ℚ) ≤ q
  · have hf : ⌊q⌋ = n := by
      rw [Int.floor_eq_iff]
      constructor
      · exact hq
      · linarith
    rw [hf, if_pos (by linarith)]
  · have hf : ⌊q⌋ = n - 1 := by
      rw [Int.floor_eq_iff]
      push_cast
      constructor <;> linarith
    rw [hf]
    push_cast
    rw [if_neg (by linarith), if_pos (by linarith)]
    ring

theorem floor_le_roundNearestEven (q : ℚ) : ⌊q⌋ ≤ roundNearestEven q := by
  unfold roundNearestEven
  split_ifs <;> omega

theorem roundNearestEven_le_ceil (q : ℚ) : roundNearestEven q ≤ ⌈q⌉ := by
  unfold roundNearestEven
  by_cases hq : (⌊q⌋ : ℚ) = q
  · have : q - ⌊q⌋ < 1 / 2 := by rw [hq]; norm_num
    rw [if_pos this]
    exact Int.floor_le_ceil q
  · have hlt : (⌊q⌋ : ℚ) < q := lt_of_le_of_ne (Int.floor_le q) hq
    have : ⌊q⌋ + 1 ≤ ⌈q⌉ := by
      rw [Int.add_one_le_iff, Int.lt_ceil]
      exact hlt
    split_ifs <;> omega

theorem log_two_eq (x : ℚ) (e : Int) (hx : 0 < x) (hlo : (2 : ℚ) ^ e ≤ x)
    (hhi : x < (2 : ℚ) ^ (e + 1)) : Int.log 2 x = e := by
  have h1 : e ≤ Int.log 2 x := by
    rw [← Int.zpow_le_iff_le_log (by norm_num) hx]
    exact_mod_cast hlo
  have h2 : Int.log 2 x < e + 1 := by
    rw [← Int.lt_zpow_iff_log_lt (by norm_num) hx]
    exact_mod_cast hhi
  omega

/-- Evaluation of `roundToDouble` on a positive rational from its binade and the nearest
multiple of the unit in the last place. -/
theorem roundToDouble_eq (x : ℚ) (e n : Int) (hx : 0 < x) (hlo : (2 : ℚ) ^ e ≤ x)
    (hhi : x < (2 : ℚ) ^ (e + 1)) (he : -1022 ≤ e)
    (hn : |x / (2 : ℚ) ^ (e - 52) - n| < 1 / 2) :
    roundToDouble x = n * (2 : ℚ) ^ (e - 52) := by
  have hu : ulpExponent x = e - 52 := by
    unfold ulpExponent
    rw [abs_of_pos hx, log_two_eq x e hx hlo hhi, max_eq_left he]
  unfold roundToDouble
  rw [hu, roundNearestEven_eq _ n hn]

/-- Below 2^53 the rounding to `double` never crosses an integer. -/
theorem roundToDouble_between (x : ℚ) (hx : 0 < x) (h53 : x < 2 ^ 53) :
    (⌊x⌋ : ℚ) ≤ roundToDouble x ∧ roundToDouble x ≤ (⌈x⌉ : ℚ) := by
  have hlog : Int.log 2 x < 53 := by
    rw [← Int.lt_zpow_iff_log_lt (by norm_num) hx]
    exact_mod_cast h53
  have hu : ulpExponent x ≤ 0 := by
    unfold ulpExponent
    rw [abs_of_pos hx]
    have : max (Int.log 2 x) (-1022) ≤ 52 := max_le (by omega) (by norm_num)
    omega
  obtain ⟨k, hk⟩ : ∃ k : ℕ, ulpExponent x = -(k : Int) := ⟨(-ulpExponent x).toNat, by omega⟩
  have hpow : (2 : ℚ) ^ ulpExponent x = 1 / (2 : ℚ) ^ k := by
    rw [hk, zpow_neg, zpow_natCast, one_div]
  have hK : (0 : ℚ) < (2 : ℚ) ^ k := by positivity
  unfold roundToDouble
  rw [hpow]
  have hdiv : x / (1 / (2 : ℚ) ^ k) = x * (2 : ℚ) ^ k := by field_simp
  rw [hdiv]
  constructor
  · have h1 : ((⌊x⌋ * 2 ^ k : Int) : ℚ) ≤ x * (2 : ℚ) ^ k := by
      push_cast
      exact mul_le_mul_of_nonneg_right (Int.floor_le x) (le_of_lt hK)
    have h2 : ⌊x⌋ * 2 ^ k ≤ roundNearestEven (x * (2 : ℚ) ^ k) :=
      le_trans (Int.le_floor.2 h1) (floor_le_roundNearestEven _)
    have h3 : ((⌊x⌋ : ℚ)) * (2 : ℚ) ^ k ≤ (roundNearestEven (x * (2 : ℚ) ^ k) : ℚ) := by
      exact_mod_cast h2
    rw [mul_one_div, le_div_iff₀ hK]
    exact h3
  · have h1 : x * (2 : ℚ) ^ k ≤ ((⌈x⌉ * 2 ^ k : Int) : ℚ) := by
      push_cast
      exact mul_le_mul_of_nonneg_right (Int.le_ceil x) (le_of_lt hK)
    have h2 : roundNearestEven (x * (2 : ℚ) ^ k) ≤ ⌈x⌉ * 2 ^ k :=
      le_trans (roundNearestEven_le_ceil _) (Int.ceil_le.2 h1)
    have h3 : (roundNearestEven (x * (2 : ℚ) ^ k) : ℚ) ≤ ((⌈x⌉ : ℚ)) * (2 : ℚ) ^ k := by
      exact_mod_cast h2
    rw [mul_one_div, div_le_iff₀ hK]
    exact h3

/-- For a display period below 2^53 ns the threshold is the exact quotient rounded down
or up to a whole nanosecond. -/
theorem timeBetweenUpdates_between (R : ℚ) (hR : 0 < R) (h53 : 10 ^ 9 / R < 2 ^ 53) :
    ⌊(10 : ℚ) ^ 9 / R⌋ ≤ timeBetweenUpdates R ∧ timeBetweenUpdates R ≤ ⌈(10 : ℚ) ^ 9 / R⌉ := by
  have hx : (0 : ℚ) < 10 ^ 9 / R := by positivity
  obtain ⟨h1, h2⟩ := roundToDouble_between _ hx h53
  have h0 : (0 : ℚ) ≤ roundToDouble (10 ^ 9 / R) :=
    le_trans (by exact_mod_cast Int.floor_nonneg.2 (le_of_lt hx)) h1
  have hfl : ⌊(10 : ℚ) ^ 9 / R⌋ ≤ ⌊roundToDouble (10 ^ 9 / R)⌋ := Int.le_floor.2 h1
  have hfu : ⌊roundToDouble (10 ^ 9 / R)⌋ ≤ ⌈(10 : ℚ) ^ 9 / R⌉ := by
    have : (⌊roundToDouble (10 ^ 9 / R)⌋ : ℚ) ≤ (⌈(10 : ℚ) ^ 9 / R⌉ : ℚ) :=
      le_trans (Int.floor_le _) h2
    exact_mod_cast this
  have hceil : ⌈(10 : ℚ) ^ 9 / R⌉ ≤ 2 ^ 53 := by
    rw [Int.ceil_le]
    push_cast
    exact le_of_lt h53
  have hfloor : 0 ≤ ⌊(10 : ℚ) ^ 9 / R⌋ := Int.floor_nonneg.2 (le_of_lt hx)
  have hcast : timeBetweenUpdates R = ⌊roundToDouble (10 ^ 9 / R)⌋ := by
    unfold timeBetweenUpdates castLongLong
    rw [if_neg (ne_of_gt hR)]
    simp only [h0, if_true]
    rw [if_pos]
    constructor
    · have : (0 : Int) ≤ ⌊roundToDouble (10 ^ 9 / R)⌋ := le_trans hfloor hfl
      omega
    · have : ⌊roundToDouble (10 ^ 9 / R)⌋ ≤ 2 ^ 53 := le_trans hfu hceil
      omega
  rw [hcast]
  exact ⟨hfl, hfu⟩

/-- The threshold for a display period of a whole number of nanoseconds below 2^53. -/
theorem timeBetweenUpdates_of_nat (R : ℚ) (m : ℕ) (hR : 0 < R) (hm : (10 : ℚ) ^ 9 / R = m)
    (h53 : m < 2 ^ 53) : timeBetweenUpdates R = m := by
  have h53q : (10 : ℚ) ^ 9 / R < 2 ^ 53 := by rw [hm]; exact_mod_cast h53
  obtain ⟨h1, h2⟩ := timeBetweenUpdates_between R hR h53q
  rw [hm] at h1 h2
  simp at h1 h2
  omega

theorem roundToDouble_tenth : roundToDouble (1 / 10) = doubleTenth := by
  rw [roundToDouble_eq (1 / 10) (-4) 7205759403792794 (by norm_num) (by norm_num) (by norm_num)
    (by norm_num) (by rw [abs_lt]; constructor <;> norm_num)]
  unfold doubleTenth
  norm_num

theorem timeBetweenUpdates_doubleTenth : timeBetweenUpdates doubleTenth = 10000000000 := by
  have hr : roundToDouble (10 ^ 9 / doubleTenth) = 10000000000 := by
    rw [roundToDouble_eq (10 ^ 9 / doubleTenth) 33 5242880000000000
      (by unfold doubleTenth; norm_num) (by unfold doubleTenth; norm_num)
      (by unfold doubleTenth; norm_num) (by norm_num)
      (by unfold doubleTenth; rw [abs_lt]; constructor <;> norm_num)]
    norm_num
  unfold timeBetweenUpdates
  rw [if_neg (by unfold doubleTenth; norm_num), hr]
  unfold castLongLong
  norm_num

theorem timeBetweenUpdates_tiny : timeBetweenUpdates (1 / 2 ^ 34) = -(2 : Int) ^ 63 := by
  have hr : roundToDouble (10 ^ 9 / (1 / 2 ^ 34)) = 17179869184000000000 := by
    rw [roundToDouble_eq (10 ^ 9 / (1 / 2 ^ 34)) 63 8388608000000000
      (by norm_num) (by norm_num) (by norm_num) (by norm_num)
      (by rw [abs_lt]; constructor <;> norm_num)]
    norm_num
  unfold timeBetweenUpdates
  rw [if_neg (by norm_num), hr]
  unfold castLongLong
  norm_num

theorem timeBetweenUpdates_nonneg (R : ℚ) (hR : 0 < R) (h53 : 10 ^ 9 / R < 2 ^ 53) :
    0 ≤ timeBetweenUpdates R :=
  le_trans (Int.floor_nonneg.2 (by positivity)) (timeBetweenUpdates_between R hR h53).1

/-- Every executed update is more than `1/R` after the last one, and a cycle more than
`1/R` and one nanosecond after the last update executes. -/
theorem doUpdate_bounds (R : ℚ) (hR : 0 < R) (h53 : 10 ^ 9 / R < 2 ^ 53)
    (now timeLastUpdate : Int) :
    (doUpdate R now timeLastUpdate = true →
      1 / R < ((now - timeLastUpdate : Int) : ℚ) / 10 ^ 9) ∧
    (1 / R + 1 / 10 ^ 9 < ((now - timeLastUpdate : Int) : ℚ) / 10 ^ 9 →
      doUpdate R now timeLastUpdate = true) := by
  obtain ⟨h1, h2⟩ := timeBetweenUpdates_between R hR h53
  have h9 : (0 : ℚ) < 10 ^ 9 := by positivity
  unfold doUpdate
  rw [decide_eq_true_iff]
  constructor
  · intro h
    have hfl : ⌊(10 : ℚ) ^ 9 / R⌋ < now - timeLastUpdate := by omega
    rw [Int.floor_lt] at hfl
    rw [lt_div_iff₀ h9]
    calc 1 / R * 10 ^ 9 = 10 ^ 9 / R := by ring
      _ < _ := hfl
  · intro h
    rw [lt_div_iff₀ h9] at h
    have hx : (10 : ℚ) ^ 9 / R + 1 < ((now - timeLastUpdate : Int) : ℚ) := by
      calc (10 : ℚ) ^ 9 / R + 1 = (1 / R + 1 / 10 ^ 9) * 10 ^ 9 := by field_simp; ring
        _ < _ := h
    have hc : (⌈(10 : ℚ) ^ 9 / R⌉ : ℚ) < ((now - timeLastUpdate : Int) : ℚ) :=
      lt_trans (Int.ceil_lt_add_one _) hx
    have hc2 : ⌈(10 : ℚ) ^ 9 / R⌉ < now - timeLastUpdate := by exact_mod_cast hc
    omega

/-- Two executed passes are more than `timeBetweenUpdates` apart, and the first one
is more than that after the stored time point. -/
theorem passTimes_gaps (R : ℚ) (hthr : 0 ≤ timeBetweenUpdates R) :
    ∀ (cycles : List Cycle) (timeLastUpdate : Int),
    (∀ c ∈ cycles, c.now1 ≤ c.now2) →
    (∀ t ∈ passTimes R timeLastUpdate cycles, timeLastUpdate + timeBetweenUpdates R < t) ∧
    (passTimes R timeLastUpdate cycles).Pairwise
      (fun s t => s + (timeBetweenUpdates R + 1) ≤ t) := by
  intro cycles
  induction cycles with
  | nil => intro _ _; simp [passTimes]
  | cons c cs ih =>
    intro last hclock
    have hc : c.now1 ≤ c.now2 := hclock c (List.mem_cons_self _ _)
    have hcs : ∀ x ∈ cs, x.now1 ≤ x.now2 := fun x hx => hclock x (List.mem_cons_of_mem _ hx)
    by_cases hd : doUpdate R c.now1 last = true
    · obtain ⟨h1, h2⟩ := ih c.now2 hcs
      have hgt : c.now1 - last > timeBetweenUpdates R := by
        simpa [doUpdate] using hd
      simp only [passTimes, hd, if_true]
      refine ⟨?_, ?_⟩
      · intro t ht
        rcases List.mem_cons.1 ht with rfl | ht
        · omega
        · have := h1 t ht
          omega
      · refine List.Pairwise.cons ?_ h2
        intro t ht
        have := h1 t ht
        omega
    · obtain ⟨h1, h2⟩ := ih last hcs
      simp only [passTimes, hd]
      exact ⟨h1, h2⟩

/-- Counting points with gaps of at least `g` below a bound `hi`. -/
theorem count_le_of_gaps (g : Int) (hg : 0 ≤ g) : ∀ (l : List Int),
    l.Pairwise (fun s t => s + g ≤ t) → ∀ (lo hi : Int), (∀ x ∈ l, lo ≤ x) →
    (l.filter (fun t => decide (t ≤ hi))).length = 0 ∨
    (((l.filter (fun t => decide (t ≤ hi))).length : Int) - 1) * g ≤ hi - lo := by
  intro l
  induction l with
  | nil => intro _ lo hi _; left; rfl
  | cons t rest ih =>
    intro hp lo hi hlo
    obtain ⟨ht, hrest⟩ := List.pairwise_cons.1 hp
    have hlot : lo ≤ t := hlo t (List.mem_cons_self _ _)
    by_cases hthi : t ≤ hi
    · have hcount : (List.filter (fun t => decide (t ≤ hi)) (t :: rest)).length =
          (List.filter (fun t => decide (t ≤ hi)) rest).length + 1 := by
        simp [List.filter_cons, hthi]
      rw [hcount]
      right
      rcases ih hrest (t + g) hi ht with h0 | h1
      · rw [h0]
        simp
        omega
      · push_cast
        have : ((List.filter (fun t => decide (t ≤ hi)) rest).length : Int) + 1 - 1 =
            (((List.filter (fun t => decide (t ≤ hi)) rest).length : Int) - 1) + 1 := by ring
        rw [this, add_mul, one_mul]
        omega
    · left
      have hnone : ∀ x ∈ t :: rest, ¬ (x ≤ hi) := by
        intro x hx
        rcases List.mem_cons.1 hx with rfl | hx
        · exact hthi
        · have := ht x hx
          omega
      rw [List.length_eq_zero, List.filter_eq_nil_iff]
      intro x hx
      simpa using hnone x hx

theorem passesIn_gaps (g : Int) (hg : 0 ≤ g) (l : List Int)
    (hp : l.Pairwise (fun s t => s + g ≤ t)) (a : Int) (T : Nat) :
    passesIn a T l = 0 ∨ ((passesIn a T l : Int) - 1) * g ≤ T := by
  have hsplit : l.filter (fun t => decide (a ≤ t ∧ t ≤ a + T)) =
      (l.filter (fun t => decide (a ≤ t))).filter (fun t => decide (t ≤ a + T)) := by
    rw [List.filter_filter]
    congr 1
    funext t
    simp [Bool.and_comm]
  have h := count_le_of_gaps g hg (l.filter (fun t => decide (a ≤ t)))
    (hp.sublist (List.filter_sublist _)) a (a + T)
    (by intro x hx; simpa using (List.mem_filter.1 hx).2)
  unfold passesIn
  rw [hsplit]
  rcases h with h | h
  · left; exact h
  · right
    have : a + (T : Int) - a = T := by ring
    rw [this] at h
    exact h

/-- The scheduler alone: for a display period below 2^53 ns, an interval of length `T`
nanoseconds holds at most `floor(T*R) + 1` executed passes. -/
theorem passTimes_upper_bound (R : ℚ) (hR : 0 < R) (h53 : 10 ^ 9 / R < 2 ^ 53)
    (timeLastUpdate : Int)
    (cycles : List Cycle) (hclock : ∀ c ∈ cycles, c.now1 ≤ c.now2) (a : Int) (T : Nat) :
    (passesIn a T (passTimes R timeLastUpdate cycles) : Int) ≤
      ⌊(T : ℚ) / 10 ^ 9 * R⌋ + 1 := by
  have hthr := timeBetweenUpdates_nonneg R hR h53
  have hfl : (0 : Int) ≤ ⌊(T : ℚ) / 10 ^ 9 * R⌋ := Int.floor_nonneg.2 (by positivity)
  rcases passesIn_gaps (timeBetweenUpdates R + 1) (by omega) _
    (passTimes_gaps R hthr cycles timeLastUpdate hclock).2 a T with h | h
  · rw [h]; push_cast; omega
  · have hlt : (10 : ℚ) ^ 9 / R < ((timeBetweenUpdates R + 1 : Int) : ℚ) := by
      have hfl := (timeBetweenUpdates_between R hR h53).1
      have : ((⌊(10 : ℚ) ^ 9 / R⌋ + 1 : Int) : ℚ) ≤ ((timeBetweenUpdates R + 1 : Int) : ℚ) := by
        exact_mod_cast Int.add_le_add_right hfl 1
      refine lt_of_lt_of_le ?_ this
      push_cast
      exact Int.lt_floor_add_one _
    by_cases hzero : passesIn a T (passTimes R timeLastUpdate cycles) = 0
    · rw [hzero]; push_cast; omega
    · have hn : (0 : ℚ) ≤ ((passesIn a T (passTimes R timeLastUpdate cycles) : Int) : ℚ) - 1 := by
        have : (1 : Int) ≤ (passesIn a T (passTimes R timeLastUpdate cycles) : Int) := by
          omega
        have : (1 : ℚ) ≤ ((passesIn a T (passTimes R timeLastUpdate cycles) : Int) : ℚ) := by
          exact_mod_cast this
        linarith
      have hq : (((passesIn a T (passTimes R timeLastUpdate cycles) : Int) : ℚ) - 1) *
          ((timeBetweenUpdates R + 1 : Int) : ℚ) ≤ (T : ℚ) := by
        exact_mod_cast h
      have hle : (((passesIn a T (passTimes R timeLastUpdate cycles) : Int) : ℚ) - 1) *
          (10 ^ 9 / R) ≤ (T : ℚ) :=
        le_trans (mul_le_mul_of_nonneg_left (le_of_lt hlt) hn) hq
      have hfinal : (((passesIn a T (passTimes R timeLastUpdate cycles) : Int) - 1 : Int) : ℚ) ≤
          (T : ℚ) / 10 ^ 9 * R := by
        push_cast
        have h9 : (0 : ℚ) < 10 ^ 9 := by positivity
        rw [div_mul_eq_mul_div, le_div_iff₀ h9]
        have := mul_le_mul_of_nonneg_right hle (le_of_lt hR)
        calc (((passesIn a T (passTimes R timeLastUpdate cycles) : Int) : ℚ) - 1) * 10 ^ 9
            = (((passesIn a T (passTimes R timeLastUpdate cycles) : Int) : ℚ) - 1) *
                (10 ^ 9 / R) * R := by field_simp
          _ ≤ (T : ℚ) * R := this
      have := Int.le_floor.2 hfinal
      omega

/-! ## Proofs: the map of port indices -/

namespace StdMap

variable {V : Type}

theorem find?_insert (m : StdMap V) (i j : Nat) (v : V) :
    find? (insert m i v) j = if i = j then some v else find? m j := by
  induction m with
  | nil => simp [insert, find?]
  | cons e m ih =>
    obtain ⟨k, w⟩ := e
    by_cases h1 : i < k
    · simp only [insert, h1, if_true, find?]
    · by_cases h3 : i = k
      · subst h3
        simp only [insert, h1, if_false, if_true, find?]
        by_cases h2 : i = j <;> simp [h2]
      · simp only [insert, h1, h3, if_false, find?, ih]
        by_cases h4 : k = j
        · have : i ≠ j := by omega
          simp [h4, this]
        · simp [h4]

theorem find?_insert_self (m : StdMap V) (i : Nat) (v : V) :
    find? (insert m i v) i = some v := by
  simp [find?_insert]

theorem find?_insert_of_ne (m : StdMap V) (i j : Nat) (v : V) (h : i ≠ j) :
    find? (insert m i v) j = find? m j := by
  simp [find?_insert, h]

end StdMap

/-! ## Proofs: the time view registry -/

namespace TimeDomainPlot

theorem chain_real (k : ElemKind) :
    ∃ type, typeChain.find? (fun tc => decide (DType.real k = DType.ofTypeid tc.1 tc.2)) =
      some (type, false) := by
  cases k <;> exact ⟨_, rfl⟩

theorem chain_complex (k : ElemKind) :
    ∃ type, typeChain.find? (fun tc => decide (DType.complex k = DType.ofTypeid tc.1 tc.2)) =
      some (type, true) := by
  cases k <;> exact ⟨_, rfl⟩

theorem chain_custom (name : String) :
    typeChain.find? (fun tc => decide (DType.custom name = DType.ofTypeid tc.1 tc.2)) = none := by
  simp [typeChain, doForThisTypeList, DType.ofTypeid]

/-- The effect of the setup of one port on the lookups in both maps. -/
theorem setupPort_find (self : TimeDomainPlot) (inPort : InputPort) (j : Nat) :
    ((setupPort self inPort)._curves.find? j =
      if inPort.index = j ∧ inPort.dtype.supported = true then
        some ((self._curves.find? j).getD [] ++ (curveTitles inPort).map QwtPlotCurve.new)
      else self._curves.find? j) ∧
    (if inPort.index = j ∧ inPort.dtype.supported = true then
      ∃ u, (setupPort self inPort)._curveUpdaters.find? j = some u ∧
        u.isComplex = inPort.dtype.isComplex
     else (setupPort self inPort)._curveUpdaters.find? j = self._curveUpdaters.find? j) := by
  cases hd : inPort.dtype with
  | real k =>
    obtain ⟨type, ht⟩ := chain_real k
    simp only [setupPort, hd, ht, curveTitles, DType.supported, DType.isComplex, and_true,
      StdMap.find?_insert, List.map]
    by_cases h : inPort.index = j
    · subst h
      simp [CurveUpdater.isComplex]
    · simp [h]
  | complex k =>
    obtain ⟨type, ht⟩ := chain_complex k
    simp only [setupPort, hd, ht, curveTitles, DType.supported, DType.isComplex, and_true,
      StdMap.find?_insert, List.map]
    by_cases h : inPort.index = j
    · subst h
      simp [CurveUpdater.isComplex]
    · simp [h]
  | custom name =>
    simp [setupPort, hd, chain_custom, DType.supported]

theorem setupPort_fields (self : TimeDomainPlot) (inPort : InputPort) :
    (setupPort self inPort)._sampleRate = self._sampleRate ∧
    (setupPort self inPort)._displayRate = self._displayRate ∧
    (setupPort self inPort)._timeLastUpdate = self._timeLastUpdate ∧
    (setupPort self inPort).consumeLog = self.consumeLog ∧
    (setupPort self inPort).replots = self.replots := by
  unfold setupPort
  split <;> simp

theorem foldl_setupPort_fields : ∀ (inputs : List InputPort) (self : TimeDomainPlot),
    (inputs.foldl setupPort self)._sampleRate = self._sampleRate ∧
    (inputs.foldl setupPort self)._displayRate = self._displayRate ∧
    (inputs.foldl setupPort self)._timeLastUpdate = self._timeLastUpdate ∧
    (inputs.foldl setupPort self).consumeLog = self.consumeLog ∧
    (inputs.foldl setupPort self).replots = self.replots := by
  intro inputs
  induction inputs with
  | nil => intro self; simp
  | cons p ps ih =>
    intro self
    obtain ⟨h1, h2, h3, h4, h5⟩ := ih (setupPort self p)
    obtain ⟨g1, g2, g3, g4, g5⟩ := setupPort_fields self p
    simp only [List.foldl_cons]
    exact ⟨h1.trans g1, h2.trans g2, h3.trans g3, h4.trans g4, h5.trans g5⟩

/-- Keys that belong to no port are not touched by the first setup loop. -/
theorem foldl_setupPort_other : ∀ (inputs : List InputPort) (self : TimeDomainPlot) (j : Nat),
    (∀ p ∈ inputs, p.index ≠ j) →
    (inputs.foldl setupPort self)._curves.find? j = self._curves.find? j ∧
    (inputs.foldl setupPort self)._curveUpdaters.find? j = self._curveUpdaters.find? j := by
  intro inputs
  induction inputs with
  | nil => intro self j _; simp
  | cons p ps ih =>
    intro self j h
    have hp : p.index ≠ j := h p (List.mem_cons_self _ _)
    obtain ⟨h1, h2⟩ := ih (setupPort self p) j (fun q hq => h q (List.mem_cons_of_mem _ hq))
    obtain ⟨g1, g2⟩ := setupPort_find self p j
    simp only [hp, false_and, if_false] at g1 g2
    simp only [List.foldl_cons]
    exact ⟨h1.trans g1, h2.trans g2⟩

/-- The entries of a supported port after the first setup loop: the new curves are
appended to whatever the registry held for the port index. -/
theorem foldl_setupPort_own : ∀ (inputs : List InputPort) (self : TimeDomainPlot)
    (inPort : InputPort), inPort ∈ inputs → (inputs.map InputPort.index).Nodup →
    inPort.dtype.supported = true →
    (inputs.foldl setupPort self)._curves.find? inPort.index =
      some ((self._curves.find? inPort.index).getD [] ++
        (curveTitles inPort).map QwtPlotCurve.new) ∧
    ∃ u, (inputs.foldl setupPort self)._curveUpdaters.find? inPort.index = some u ∧
      u.isComplex = inPort.dtype.isComplex := by
  intro inputs
  induction inputs with
  | nil => intro self inPort h; simp at h
  | cons p ps ih =>
    intro self inPort hmem hnodup hsup
    simp only [List.map_cons, List.nodup_cons] at hnodup
    obtain ⟨hnot, hnd⟩ := hnodup
    simp only [List.foldl_cons]
    rcases List.mem_cons.1 hmem with rfl | hin
    · have hother : ∀ q ∈ ps, q.index ≠ inPort.index := by
        intro q hq heq
        exact hnot (heq ▸ List.mem_map_of_mem _ hq)
      obtain ⟨h1, h2⟩ := foldl_setupPort_other ps (setupPort self inPort) inPort.index hother
      obtain ⟨g1, g2⟩ := setupPort_find self inPort inPort.index
      simp only [hsup, and_self, if_true] at g1 g2
      refine ⟨h1.trans g1, ?_⟩
      obtain ⟨u, hu, hc⟩ := g2
      exact ⟨u, h2.trans hu, hc⟩
    · have hne : p.index ≠ inPort.index := by
        intro heq
        exact hnot (heq ▸ List.mem_map_of_mem _ hin)
      obtain ⟨h1, h2⟩ := ih (setupPort self p) inPort hin hnd hsup
      obtain ⟨g1, g2⟩ := setupPort_find self p inPort.index
      simp only [hne, false_and, if_false] at g1 g2
      rw [g1] at h1
      exact ⟨h1, h2⟩

theorem attachCurves_map (f : QwtPlotCurve → String) (hf : ∀ c k, f (c.attachWithPen k) = f c) :
    ∀ (curves : List QwtPlotCurve) (k : Nat), (attachCurves k curves).map f = curves.map f := by
  intro curves
  induction curves with
  | nil => intro k; rfl
  | cons c cs ih => intro k; simp [attachCurves, hf, ih]

theorem attachCurves_length : ∀ (curves : List QwtPlotCurve) (k : Nat),
    (attachCurves k curves).length = curves.length := by
  intro curves
  induction curves with
  | nil => intro k; rfl
  | cons c cs ih => intro k; simp [attachCurves, ih]

/-- The continued setup keeps the keys; the curves of a key keep their order. -/
theorem attachAll_find : ∀ (m : StdMap (List QwtPlotCurve)) (k j : Nat),
    ∃ k2, StdMap.find? (attachAll k m) j = (StdMap.find? m j).map (attachCurves k2) := by
  intro m
  induction m with
  | nil => intro k j; exact ⟨0, rfl⟩
  | cons e m ih =>
    intro k j
    obtain ⟨i, cs⟩ := e
    by_cases h : i = j
    · exact ⟨k, by simp [attachAll, StdMap.find?, h]⟩
    · obtain ⟨k2, hk2⟩ := ih (k + cs.length) j
      exact ⟨k2, by simp [attachAll, StdMap.find?, h, hk2]⟩

/-- One setup run on a registry as `activate` leaves it gives every supported port the
entries described by `Bound`. -/
theorem setup_bound (self : TimeDomainPlot) (inputs : List InputPort)
    (hc : self._curves = [])
    (hnodup : (inputs.map InputPort.index).Nodup)
    (inPort : InputPort) (hmem : inPort ∈ inputs) (hsup : inPort.dtype.supported = true) :
    Bound (self.setupPlotterCurves inputs) inPort ∧
    ((self.setupPlotterCurves inputs)._curves.find? inPort.index).map
      (fun cs => cs.map QwtPlotCurve.title) = some (curveTitles inPort) := by
  obtain ⟨h1, u, h2, h3⟩ := foldl_setupPort_own inputs self inPort hmem hnodup hsup
  obtain ⟨k2, hk2⟩ := attachAll_find (inputs.foldl setupPort self)._curves 0 inPort.index
  have hfind : (self.setupPlotterCurves inputs)._curves.find? inPort.index =
      some (attachCurves k2 ((curveTitles inPort).map QwtPlotCurve.new)) := by
    simp only [setupPlotterCurves]
    rw [hk2, h1, hc]
    simp [StdMap.find?]
  have hupd : (self.setupPlotterCurves inputs)._curveUpdaters.find? inPort.index = some u := by
    simpa [setupPlotterCurves] using h2
  refine ⟨?_, ?_⟩
  · unfold Bound
    cases hd : inPort.dtype with
    | real k =>
      simp only [hd, DType.isComplex] at h3
      cases u with
      | fromElements type =>
        refine ⟨type,
          (QwtPlotCurve.new ("Ch" ++ toString inPort.index)).attachWithPen k2, hupd, ?_⟩
        rw [hfind]
        simp [curveTitles, hd, attachCurves]
      | fromComplexElements type => simp [CurveUpdater.isComplex] at h3
    | complex k =>
      simp only [hd, DType.isComplex] at h3
      cases u with
      | fromElements type => simp [CurveUpdater.isComplex] at h3
      | fromComplexElements type =>
        refine ⟨type,
          (QwtPlotCurve.new ("Ch" ++ toString inPort.index ++ ".Re")).attachWithPen k2,
          (QwtPlotCurve.new ("Ch" ++ toString inPort.index ++ ".Im")).attachWithPen (k2 + 1),
          hupd, ?_⟩
        rw [hfind]
        simp [curveTitles, hd, attachCurves]
    | custom name => simp [hd, DType.supported] at hsup
  · rw [hfind]
    simp only [Option.map_some']
    rw [attachCurves_map QwtPlotCurve.title (fun c k => rfl)]
    simp [QwtPlotCurve.new, Function.comp_def]

/-- Keys that belong to no port stay absent in a setup run on an empty registry. -/
theorem setup_no_stale (self : TimeDomainPlot) (inputs : List InputPort)
    (hc : self._curves = []) (hu : self._curveUpdaters = []) (j : Nat)
    (hj : ∀ p ∈ inputs, p.index ≠ j) :
    (self.setupPlotterCurves inputs)._curves.find? j = none ∧
    (self.setupPlotterCurves inputs)._curveUpdaters.find? j = none := by
  obtain ⟨h1, h2⟩ := foldl_setupPort_other inputs self j hj
  obtain ⟨k2, hk2⟩ := attachAll_find (inputs.foldl setupPort self)._curves 0 j
  refine ⟨?_, ?_⟩
  · simp only [setupPlotterCurves]
    rw [hk2, h1, hc]
    rfl
  · simp only [setupPlotterCurves]
    rw [h2, hu]
    rfl

end TimeDomainPlot

/-! ## Proofs: the time view work cycle -/

namespace TimeDomainPlot

theorem setup_fields (self : TimeDomainPlot) (inputs : List InputPort) :
    (self.setupPlotterCurves inputs)._sampleRate = self._sampleRate ∧
    (self.setupPlotterCurves inputs)._displayRate = self._displayRate ∧
    (self.setupPlotterCurves inputs)._timeLastUpdate = self._timeLastUpdate ∧
    (self.setupPlotterCurves inputs).consumeLog = self.consumeLog ∧
    (self.setupPlotterCurves inputs).replots = self.replots := by
  simpa [setupPlotterCurves] using foldl_setupPort_fields inputs self

/-- The predicate `Bound` reads the two maps at the index of the port only. -/
theorem Bound_congr (s s2 : TimeDomainPlot) (q : InputPort)
    (hu : s2._curveUpdaters.find? q.index = s._curveUpdaters.find? q.index)
    (hc : s2._curves.find? q.index = s._curves.find? q.index) (h : Bound s q) :
    Bound s2 q := by
  unfold Bound at h ⊢
  rw [hu, hc]
  exact h

theorem workLoop_step_real (nsamps : Nat) (p : InputPort) (rest : List InputPort)
    (s : TimeDomainPlot) (type : CType) (curve : QwtPlotCurve)
    (hu : s._curveUpdaters.find? p.index = some (.fromElements type))
    (hc : s._curves.find? p.index = some [curve]) :
    workLoop true nsamps (p :: rest) s =
      workLoop true nsamps rest
        { s with
          _curves := s._curves.insert p.index
            [plotCurvesFromElements p (min nsamps pointsPerPlot) s._sampleRate curve]
          consumeLog := s.consumeLog ++ [(p.index, nsamps)] } := by
  simp [workLoop, hu, callUpdater, hc, consume]

theorem workLoop_step_complex (nsamps : Nat) (p : InputPort) (rest : List InputPort)
    (s : TimeDomainPlot) (type : CType) (curveRe curveIm : QwtPlotCurve)
    (hu : s._curveUpdaters.find? p.index = some (.fromComplexElements type))
    (hc : s._curves.find? p.index = some [curveRe, curveIm]) :
    workLoop true nsamps (p :: rest) s =
      workLoop true nsamps rest
        { s with
          _curves := s._curves.insert p.index
            [(plotCurvesFromComplexElements p (min nsamps pointsPerPlot) s._sampleRate
                curveRe curveIm).1,
             (plotCurvesFromComplexElements p (min nsamps pointsPerPlot) s._sampleRate
                curveRe curveIm).2]
          consumeLog := s.consumeLog ++ [(p.index, nsamps)] } := by
  simp [workLoop, hu, callUpdater, hc, consume]

/-- The loop of `work` with the update on, from a registry in order: no exception, every
port consumed once in port order, every channel with its new points. -/
theorem workLoop_update (nsamps : Nat) : ∀ (ps : List InputPort) (s : TimeDomainPlot),
    (ps.map InputPort.index).Nodup → (∀ p ∈ ps, Bound s p) →
    (workLoop true nsamps ps s).2 = none ∧
    (∀ p ∈ ps, ((workLoop true nsamps ps s).1._curves.find? p.index).map
        (fun cs => cs.map QwtPlotCurve.samples) =
      some (channelPoints p (min nsamps pointsPerPlot) s._sampleRate)) ∧
    (∀ j, (∀ p ∈ ps, p.index ≠ j) →
      (workLoop true nsamps ps s).1._curves.find? j = s._curves.find? j) ∧
    (workLoop true nsamps ps s).1._curveUpdaters = s._curveUpdaters ∧
    (workLoop true nsamps ps s).1.consumeLog =
      s.consumeLog ++ ps.map (fun p => (p.index, nsamps)) ∧
    (workLoop true nsamps ps s).1._sampleRate = s._sampleRate ∧
    (workLoop true nsamps ps s).1._displayRate = s._displayRate ∧
    (workLoop true nsamps ps s).1._timeLastUpdate = s._timeLastUpdate ∧
    (workLoop true nsamps ps s).1.replots = s.replots ∧
    (∀ p ∈ ps, Bound (workLoop true nsamps ps s).1 p) := by
  intro ps
  induction ps with
  | nil => intro s _ _; simp [workLoop]
  | cons p rest ih =>
    intro s hnodup hbound
    simp only [List.map_cons, List.nodup_cons] at hnodup
    obtain ⟨hnot, hnd⟩ := hnodup
    have hother : ∀ q ∈ rest, p.index ≠ q.index := by
      intro q hq heq
      exact hnot (heq ▸ List.mem_map_of_mem _ hq)
    have hb := hbound p (List.mem_cons_self _ _)
    have hstep : ∃ newCurves : List QwtPlotCurve,
        newCurves.map QwtPlotCurve.samples =
          channelPoints p (min nsamps pointsPerPlot) s._sampleRate ∧
        workLoop true nsamps (p :: rest) s =
          workLoop true nsamps rest
            { s with
              _curves := s._curves.insert p.index newCurves
              consumeLog := s.consumeLog ++ [(p.index, nsamps)] } ∧
        Bound
          { s with
            _curves := s._curves.insert p.index newCurves
            consumeLog := s.consumeLog ++ [(p.index, nsamps)] } p := by
      cases hd : p.dtype with
      | real k =>
        simp only [Bound, hd] at hb
        obtain ⟨type, curve, hu, hc⟩ := hb
        refine ⟨_, by simp [channelPoints, hd, plotCurvesFromElements, QwtPlotCurve.setSamples],
          workLoop_step_real nsamps p rest s type curve hu hc, ?_⟩
        simp only [Bound, hd]
        exact ⟨type, _, hu, StdMap.find?_insert_self _ _ _⟩
      | complex k =>
        simp only [Bound, hd] at hb
        obtain ⟨type, curveRe, curveIm, hu, hc⟩ := hb
        refine ⟨_,
          by simp [channelPoints, hd, plotCurvesFromComplexElements, QwtPlotCurve.setSamples],
          workLoop_step_complex nsamps p rest s type curveRe curveIm hu hc, ?_⟩
        simp only [Bound, hd]
        exact ⟨type, _, _, hu, StdMap.find?_insert_self _ _ _⟩
      | custom name =>
        simp [Bound, hd] at hb
    obtain ⟨newCurves, hsamples, hstep, hbp⟩ := hstep
    have hb2 : ∀ q ∈ rest, Bound
        { s with
          _curves := s._curves.insert p.index newCurves
          consumeLog := s.consumeLog ++ [(p.index, nsamps)] } q := by
      intro q hq
      exact Bound_congr s _ q rfl
        (StdMap.find?_insert_of_ne _ _ _ _ (hother q hq))
        (hbound q (List.mem_cons_of_mem _ hq))
    obtain ⟨h1, h2, h3, h4, h5, h6, h7, h8, h9, h10⟩ := ih _ hnd hb2
    rw [hstep]
    refine ⟨h1, ?_, ?_, h4, ?_, h6, h7, h8, h9, ?_⟩
    rotate_left 3
    · intro q hq
      rcases List.mem_cons.1 hq with rfl | hq
      · exact Bound_congr _ _ q (by rw [h4])
          (h3 q.index (fun r hr heq => hother r hr heq.symm)) hbp
      · exact h10 q hq
    · intro q hq
      rcases List.mem_cons.1 hq with rfl | hq
      · rw [h3 q.index (fun r hr heq => hother r hr heq.symm)]
        simp only [StdMap.find?_insert_self, Option.map_some']
        rw [hsamples]
      · exact h2 q hq
    · intro j hj
      rw [h3 j (fun r hr => hj r (List.mem_cons_of_mem _ hr))]
      exact StdMap.find?_insert_of_ne _ _ _ _ (hj p (List.mem_cons_self _ _))
    · rw [h5]
      simp

/-- The loop of `work` with the update off: no exception, every port consumed once in
port order, nothing else changes. -/
theorem workLoop_skip (nsamps : Nat) : ∀ (ps : List InputPort) (s : TimeDomainPlot),
    workLoop false nsamps ps s =
      ({ s with consumeLog := s.consumeLog ++ ps.map (fun p => (p.index, nsamps)) }, none) := by
  intro ps
  induction ps with
  | nil => intro s; simp [workLoop]
  | cons p rest ih =>
    intro s
    simp [workLoop, ih, consume]

/-- The state on which `work` runs its loop has every port in order. -/
theorem ready_bound (self : TimeDomainPlot) (inputs : List InputPort)
    (hnodup : (inputs.map InputPort.index).Nodup) (hready : Ready self inputs) :
    ∀ p ∈ inputs,
      Bound (if self._curves.isEmpty then self.setupPlotterCurves inputs else self) p := by
  intro p hp
  rcases hready with ⟨hc, hsup⟩ | ⟨hc, hb⟩
  · have : self._curves.isEmpty = true := by rw [hc]; rfl
    rw [if_pos this]
    exact (setup_bound self inputs hc hnodup p hp (hsup p hp)).1
  · have : ¬ (self._curves.isEmpty = true) := by
      rw [List.isEmpty_iff]; exact hc
    rw [if_neg this]
    exact hb p hp

theorem lazySetup_fields (self : TimeDomainPlot) (inputs : List InputPort) :
    (if self._curves.isEmpty then self.setupPlotterCurves inputs else self)._sampleRate =
      self._sampleRate ∧
    (if self._curves.isEmpty then self.setupPlotterCurves inputs else self)._displayRate =
      self._displayRate ∧
    (if self._curves.isEmpty then self.setupPlotterCurves inputs else self)._timeLastUpdate =
      self._timeLastUpdate ∧
    (if self._curves.isEmpty then self.setupPlotterCurves inputs else self).consumeLog =
      self.consumeLog ∧
    (if self._curves.isEmpty then self.setupPlotterCurves inputs else self).replots =
      self.replots := by
  split
  · exact setup_fields self inputs
  · exact ⟨rfl, rfl, rfl, rfl, rfl⟩

/-- The result of `work` when its loop threw no exception. -/
theorem work_of_loop_ok (self : TimeDomainPlot) (inputs : List InputPort) (clock : Cycle)
    (d : Bool) (hd : doUpdate self._displayRate clock.now1 self._timeLastUpdate = d)
    (s : TimeDomainPlot)
    (hr : workLoop d (minElements inputs) inputs
      (if self._curves.isEmpty then self.setupPlotterCurves inputs else self) = (s, none)) :
    self.work inputs clock =
      if d then ({ s with replots := s.replots + 1, _timeLastUpdate := clock.now2 }, none)
      else (s, none) := by
  obtain ⟨_, h2, h3, _, _⟩ := lazySetup_fields self inputs
  unfold work
  simp only [h2, h3, hd, hr]

/-- The result of `work` when its loop threw an exception. -/
theorem work_of_loop_throw (self : TimeDomainPlot) (inputs : List InputPort) (clock : Cycle)
    (d : Bool) (hd : doUpdate self._displayRate clock.now1 self._timeLastUpdate = d)
    (s : TimeDomainPlot) (e : Exception)
    (hr : workLoop d (minElements inputs) inputs
      (if self._curves.isEmpty then self.setupPlotterCurves inputs else self) = (s, some e)) :
    self.work inputs clock = (s, some e) := by
  obtain ⟨_, h2, h3, _, _⟩ := lazySetup_fields self inputs
  unfold work
  simp only [h2, h3, hd, hr]

end TimeDomainPlot

/-! ## Proofs: the frequency view -/

namespace FreqDomainPlot

theorem chain_supported (dtype : DType) (h : dtype.supported = true) :
    ∃ tc, typeChain.find? (fun tc => decide (dtype = DType.ofTypeid tc.1 tc.2)) = some tc := by
  cases dtype with
  | real k => cases k <;> exact ⟨_, rfl⟩
  | complex k => cases k <;> exact ⟨_, rfl⟩
  | custom name => simp [DType.supported] at h

theorem freq_chain_custom (name : String) :
    typeChain.find? (fun tc => decide (DType.custom name = DType.ofTypeid tc.1 tc.2)) = none := by
  simp [typeChain, doForThisTypeList, DType.ofTypeid]

/-- The first setup loop throws at the first port of an unsupported type, and without
such a port it registers a converter and a curve for every port. -/
theorem setupLoop_spec : ∀ (inputs : List InputPort) (self : FreqDomainPlot),
    ((∃ p ∈ inputs, p.dtype.supported = false) →
      ∃ source, (setupLoop inputs self).2 =
        some (.InvalidArgumentException source "dtype not supported")) ∧
    ((setupLoop inputs self).2 = none →
      (∀ p ∈ inputs, p.dtype.supported = true) ∧
      ∀ q : InputPort, (q ∈ inputs ∨ Registered self q) →
        Registered (setupLoop inputs self).1 q) := by
  intro inputs
  induction inputs with
  | nil =>
    intro self
    refine ⟨by simp, fun _ => ⟨by simp, ?_⟩⟩
    intro q hq
    rcases hq with hq | hq
    · simp at hq
    · exact hq
  | cons p ps ih =>
    intro self
    cases hsup : p.dtype.supported with
    | false =>
      have hnone : typeChain.find? (fun tc => decide (p.dtype = DType.ofTypeid tc.1 tc.2)) =
          none := by
        cases hd : p.dtype with
        | real k => simp [hd, DType.supported] at hsup
        | complex k => simp [hd, DType.supported] at hsup
        | custom name => exact freq_chain_custom name
      simp only [setupLoop, hnone]
      exact ⟨fun _ => ⟨_, rfl⟩, fun h => by simp at h⟩
    | true =>
      obtain ⟨⟨type, isComplex⟩, htc⟩ := chain_supported p.dtype hsup
      simp only [setupLoop, htc]
      obtain ⟨ih1, ih2⟩ := ih
        { self with
          _curves := self._curves.insert p.index (QwtPlotCurve.new ("Ch" ++ toString p.index))
          _inputConverters := self._inputConverters.insert p.index ⟨type, isComplex⟩ }
      refine ⟨?_, ?_⟩
      · rintro ⟨q, hq, hqs⟩
        rcases List.mem_cons.1 hq with rfl | hq
        · rw [hsup] at hqs; exact absurd hqs (by simp)
        · exact ih1 ⟨q, hq, hqs⟩
      · intro hok
        obtain ⟨h1, h2⟩ := ih2 hok
        refine ⟨?_, ?_⟩
        · intro q hq
          rcases List.mem_cons.1 hq with rfl | hq
          · exact hsup
          · exact h1 q hq
        · intro q hq
          apply h2
          by_cases hin : q ∈ ps
          · exact Or.inl hin
          · right
            have hreg : q = p ∨ Registered self q := by
              rcases hq with hq | hq
              · rcases List.mem_cons.1 hq with h | h
                · exact Or.inl h
                · exact absurd h hin
              · exact Or.inr hq
            unfold Registered
            simp only [StdMap.find?_insert]
            rcases hreg with rfl | hreg
            · simp
            · by_cases hi : p.index = q.index
              · simp [hi]
              · simp only [hi, if_false]
                exact hreg

theorem freq_attachAll_find : ∀ (m : StdMap QwtPlotCurve) (k j : Nat),
    ∃ k2, StdMap.find? (attachAll k m) j =
      (StdMap.find? m j).map (fun c => c.attachWithPen k2) := by
  intro m
  induction m with
  | nil => intro k j; exact ⟨0, rfl⟩
  | cons e m ih =>
    intro k j
    obtain ⟨i, c⟩ := e
    by_cases h : i = j
    · exact ⟨k, by simp [attachAll, StdMap.find?, h]⟩
    · obtain ⟨k2, hk2⟩ := ih (k + 1) j
      exact ⟨k2, by simp [attachAll, StdMap.find?, h, hk2]⟩

/-- With a port of an unsupported type the setup of the frequency view throws. -/
theorem setup_throws_of_unsupported (self : FreqDomainPlot) (inputs : List InputPort)
    (h : ∃ p ∈ inputs, p.dtype.supported = false) :
    ∃ source, (self.setupPlotterCurves inputs).2 =
      some (.InvalidArgumentException source "dtype not supported") := by
  obtain ⟨source, hs⟩ := (setupLoop_spec inputs
    { self with _curves := [], _inputConverters := [] }).1 h
  refine ⟨source, ?_⟩
  cases hr : setupLoop inputs { self with _curves := [], _inputConverters := [] } with
  | mk s e =>
    rw [hr] at hs
    simp only at hs
    subst hs
    simp only [setupPlotterCurves, hr]

/-- After a setup of the frequency view that returned normally every port has its
converter and its curve. -/
theorem setup_registers (self : FreqDomainPlot) (inputs : List InputPort)
    (hok : (self.setupPlotterCurves inputs).2 = none) :
    ∀ p ∈ inputs, Registered (self.setupPlotterCurves inputs).1 p := by
  intro p hp
  cases hr : setupLoop inputs { self with _curves := [], _inputConverters := [] } with
  | mk s e =>
    cases e with
    | some e => simp [setupPlotterCurves, hr] at hok
    | none =>
      have h2 := ((setupLoop_spec inputs
        { self with _curves := [], _inputConverters := [] }).2 (by rw [hr])).2 p (Or.inl hp)
      rw [hr] at h2
      obtain ⟨k2, hk2⟩ := freq_attachAll_find s._curves 0 p.index
      unfold Registered at h2 ⊢
      simp only [setupPlotterCurves, hr]
      split_ifs
      · simp only [hk2]
        refine ⟨h2.1, ?_⟩
        cases hf : StdMap.find? s._curves p.index with
        | none => rw [hf] at h2; simp at h2
        | some c => simp
      · simp only [hk2]
        refine ⟨h2.1, ?_⟩
        cases hf : StdMap.find? s._curves p.index with
        | none => rw [hf] at h2; simp at h2
        | some c => simp

theorem fft_length (x : CArray) : (fft x).length = x.length := by
  simp [fft]

theorem curvePoints_length (rate : Float) (converted : CArray) :
    (curvePoints rate converted).length = converted.length := by
  simp [curvePoints, binReorder_length, fft_length]

theorem convertElementsToCArray_length (isComplex : Bool) (inPort : InputPort) (bins : CArray) :
    (convertElementsToCArray isComplex inPort bins).length = bins.length := by
  simp [convertElementsToCArray]

/-- The method `updateCurve` on a registered port: it returns normally and gives the
curve of the port as many points as the window has bins, for every window size. -/
theorem updateCurve_registered (self : FreqDomainPlot) (inPort : InputPort)
    (hreg : Registered self inPort) :
    ∃ (curve : QwtPlotCurve) (points : List (Float × Float)),
      self._curves.find? inPort.index = some curve ∧
      points.length = min inPort.elements self._numFFTBins ∧
      self.updateCurve inPort =
        ({ self with _curves := self._curves.insert inPort.index (curve.setSamples points) },
         none) := by
  obtain ⟨h1, h2⟩ := hreg
  cases hconv : self._inputConverters.find? inPort.index with
  | none => rw [hconv] at h1; simp at h1
  | some converter =>
    cases hcurve : self._curves.find? inPort.index with
    | none => rw [hcurve] at h2; simp at h2
    | some curve =>
      refine ⟨curve,
        curvePoints self._sampleRateWoAxisUnits
          (convertElementsToCArray converter.isComplex inPort
            (List.replicate (min inPort.elements self._numFFTBins) ⟨0, 0⟩)),
        rfl, ?_, ?_⟩
      · simp [curvePoints_length, convertElementsToCArray_length]
      · simp only [updateCurve, hconv, hcurve]

theorem updateCurve_keeps_registered (self : FreqDomainPlot) (inPort q : InputPort)
    (hreg : Registered self inPort) (hq : Registered self q) :
    Registered (self.updateCurve inPort).1 q := by
  obtain ⟨curve, points, _, _, hrun⟩ := updateCurve_registered self inPort hreg
  rw [hrun]
  unfold Registered at hq ⊢
  refine ⟨hq.1, ?_⟩
  simp only [StdMap.find?_insert]
  split_ifs
  · rfl
  · exact hq.2

/-- The loop of `work` with the update off. -/
theorem freq_workLoop_skip (nsamps : Nat) : ∀ (ps : List InputPort) (s : FreqDomainPlot),
    workLoop false nsamps ps s =
      ({ s with consumeLog := s.consumeLog ++ ps.map (fun p => (p.index, nsamps)) }, none) := by
  intro ps
  induction ps with
  | nil => intro s; simp [workLoop]
  | cons p rest ih =>
    intro s
    simp [workLoop, ih, consume]

/-- The loop of `work` with the update on, every port registered: no exception, every
port consumed once in port order. -/
theorem freq_workLoop_update (nsamps : Nat) : ∀ (ps : List InputPort) (s : FreqDomainPlot),
    (∀ p ∈ ps, Registered s p) →
    (workLoop true nsamps ps s).2 = none ∧
    (workLoop true nsamps ps s).1.consumeLog =
      s.consumeLog ++ ps.map (fun p => (p.index, nsamps)) ∧
    (workLoop true nsamps ps s).1._displayRate = s._displayRate ∧
    (workLoop true nsamps ps s).1._timeLastUpdate = s._timeLastUpdate ∧
    (workLoop true nsamps ps s).1.replots = s.replots ∧
    (∀ q, Registered s q → Registered (workLoop true nsamps ps s).1 q) := by
  intro ps
  induction ps with
  | nil => intro s _; simp [workLoop]
  | cons p rest ih =>
    intro s hreg
    have hp := hreg p (List.mem_cons_self _ _)
    obtain ⟨curve, points, _, _, hrun⟩ := updateCurve_registered s p hp
    have hkeep : ∀ q, Registered s q → Registered ((s.updateCurve p).1.consume p nsamps) q :=
      fun q hq => updateCurve_keeps_registered s p q hp hq
    obtain ⟨h1, h2, h3, h4, h5, h6⟩ := ih ((s.updateCurve p).1.consume p nsamps)
      (fun q hq => hkeep q (hreg q (List.mem_cons_of_mem _ hq)))
    have hstep : workLoop true nsamps (p :: rest) s =
        workLoop true nsamps rest ((s.updateCurve p).1.consume p nsamps) := by
      simp only [workLoop, hrun, if_true]
    rw [hstep]
    refine ⟨h1, ?_, ?_, ?_, ?_, fun q hq => h6 q (hkeep q hq)⟩
    · rw [h2, hrun]; simp [consume]
    · rw [h3, hrun]; rfl
    · rw [h4, hrun]; rfl
    · rw [h5, hrun]; rfl

/-- The result of `work` when its loop threw no exception. -/
theorem freq_work_of_loop_ok (self : FreqDomainPlot) (inputs : List InputPort) (clock : Cycle)
    (d : Bool) (hd : doUpdate self._displayRate clock.now1 self._timeLastUpdate = d)
    (s : FreqDomainPlot)
    (hr : workLoop d (minElements inputs) inputs self = (s, none)) :
    self.work inputs clock =
      if d then ({ s with replots := s.replots + 1, _timeLastUpdate := clock.now2 }, none)
      else (s, none) := by
  unfold work
  simp only [hd, hr]

end FreqDomainPlot

/-! ## Claims about the plot views -/

theorem timeBetweenUpdates_ten : timeBetweenUpdates 10 = 100000000 :=
  timeBetweenUpdates_of_nat 10 100000000 (by norm_num) (by norm_num) (by norm_num)

namespace TimeDomainPlot

theorem fresh_doUpdate_late :
    doUpdate fresh._displayRate clockLate.now1 fresh._timeLastUpdate = true := by
  simp [doUpdate, fresh, clockLate, timeBetweenUpdates_ten]

theorem fresh_doUpdate_early :
    doUpdate fresh._displayRate clockEarly.now1 fresh._timeLastUpdate = false := by
  simp [doUpdate, fresh, clockEarly, timeBetweenUpdates_ten]

/-- The work cycle of the time view with the update on, from a registry in order. -/
theorem work_update (self : TimeDomainPlot) (inputs : List InputPort) (clock : Cycle)
    (hnodup : (inputs.map InputPort.index).Nodup) (hready : Ready self inputs)
    (hupd : doUpdate self._displayRate clock.now1 self._timeLastUpdate = true) :
    (self.work inputs clock).2 = none ∧
    (∀ p ∈ inputs, ((self.work inputs clock).1._curves.find? p.index).map
        (fun cs => cs.map QwtPlotCurve.samples) =
      some (channelPoints p (min (minElements inputs) pointsPerPlot) self._sampleRate)) ∧
    (self.work inputs clock).1.consumeLog =
      self.consumeLog ++ inputs.map (fun p => (p.index, minElements inputs)) ∧
    (self.work inputs clock).1.replots = self.replots + 1 ∧
    (self.work inputs clock).1._timeLastUpdate = clock.now2 := by
  obtain ⟨g1, _, _, g4, g5⟩ := lazySetup_fields self inputs
  obtain ⟨h1, h2, _, _, h5, _, _, _, h9, _⟩ := workLoop_update (minElements inputs) inputs
    (if self._curves.isEmpty then self.setupPlotterCurves inputs else self) hnodup
    (ready_bound self inputs hnodup hready)
  have hr : workLoop true (minElements inputs) inputs
      (if self._curves.isEmpty then self.setupPlotterCurves inputs else self) =
      ((workLoop true (minElements inputs) inputs
        (if self._curves.isEmpty then self.setupPlotterCurves inputs else self)).1, none) :=
    Prod.ext rfl h1
  rw [work_of_loop_ok self inputs clock true hupd _ hr]
  simp only [if_true]
  refine ⟨trivial, ?_, ?_, ?_, trivial⟩
  · intro p hp
    rw [← g1]
    exact h2 p hp
  · rw [h5, g4]
  · rw [h9, g5]

end TimeDomainPlot

namespace TimeDomainPlot

/-- C1, failing input: a time view whose first port has a type outside the supported set.
In a cycle in which the update runs, `work` throws `std::out_of_range` at the updater
lookup of that port before any `consume` call, so no port is consumed; in a cycle in
which the update does not run, the same ports are consumed once each. -/
theorem work_missing_updater_skips_consume :
    (fresh.work [chCustom, ch1] clockLate).2 = some .out_of_range ∧
    (fresh.work [chCustom, ch1] clockLate).1.consumeLog = [] ∧
    (fresh.work [chCustom, ch1] clockEarly).2 = none ∧
    (fresh.work [chCustom, ch1] clockEarly).1.consumeLog = [(0, 1), (1, 1)] := by
  have h1 := work_of_loop_throw fresh [chCustom, ch1] clockLate true fresh_doUpdate_late
    (workLoop true (minElements [chCustom, ch1]) [chCustom, ch1]
      (if fresh._curves.isEmpty then fresh.setupPlotterCurves [chCustom, ch1] else fresh)).1
    .out_of_range rfl
  have h2 := work_of_loop_ok fresh [chCustom, ch1] clockEarly false fresh_doUpdate_early
    (workLoop false (minElements [chCustom, ch1]) [chCustom, ch1]
      (if fresh._curves.isEmpty then fresh.setupPlotterCurves [chCustom, ch1] else fresh)).1
    rfl
  rw [h1, h2]
  exact ⟨rfl, rfl, rfl, rfl⟩

/-- C3, failing input: a time view with one port of a type outside the supported set.
After `activate`, `setupPlotterCurves` returns without an error and registers no updater
for the port; the next `work` cycle in which the update runs throws `std::out_of_range`
at the updater lookup.  The frequency view throws at setup on the same port. -/
theorem setup_accepts_unsupported_type :
    chCustom.dtype.supported = false ∧
    ((fresh.activate [chCustom]).setupPlotterCurves [chCustom])._curveUpdaters.find? 0 = none ∧
    (((fresh.activate [chCustom]).setupPlotterCurves [chCustom]).work [chCustom] clockLate).2 =
      some .out_of_range ∧
    (FreqDomainPlot.fresh.setupPlotterCurves [chCustom]).2 =
      some (.InvalidArgumentException "FreqDomainPlot::setupPlotterCurves(custom)"
        "dtype not supported") := by
  have h1 := work_of_loop_throw ((fresh.activate [chCustom]).setupPlotterCurves [chCustom])
    [chCustom] clockLate true
    (by simp [doUpdate, fresh, activate, setupPlotterCurves, setupPort, chCustom,
      chain_custom, clockLate, timeBetweenUpdates_ten])
    ((fresh.activate [chCustom]).setupPlotterCurves [chCustom]) .out_of_range rfl
  rw [h1]
  exact ⟨rfl, rfl, rfl, rfl⟩

/-- C5, as stated, fails: channel 0 has three elements available and channel 1 has one;
in a cycle in which the update runs the curve of channel 0 receives one point, the
minimum over both ports, and not `min(3, pointsPerPlot) = 3` points. -/
theorem work_points_not_per_port :
    ch0.elements = 3 ∧ min ch0.elements pointsPerPlot = 3 ∧
    (fresh.work [ch0, ch1] clockLate).2 = none ∧
    ((fresh.work [ch0, ch1] clockLate).1._curves.find? 0).map
      (fun cs => cs.map (fun c => c.samples.length)) = some [1] := by
  have h := work_of_loop_ok fresh [ch0, ch1] clockLate true fresh_doUpdate_late
    (workLoop true (minElements [ch0, ch1]) [ch0, ch1]
      (if fresh._curves.isEmpty then fresh.setupPlotterCurves [ch0, ch1] else fresh)).1
    rfl
  rw [h]
  exact ⟨rfl, rfl, rfl, rfl⟩

/-- C5, amended: in every `work` cycle in which the update runs, on a registry in order
and ports with distinct indices, `work` returns normally and the curves of every channel
receive exactly `min(minElements, pointsPerPlot)` points, where `minElements` is the
minimum of the available elements over all input ports; the i-th point is
`(i/_sampleRate, sample[i])` for a real channel, and `(i/_sampleRate, real(sample[i]))`
and `(i/_sampleRate, imag(sample[i]))` on the two curves of a complex channel. -/
theorem work_points (self : TimeDomainPlot) (inputs : List InputPort) (clock : Cycle)
    (hnodup : (inputs.map InputPort.index).Nodup) (hready : Ready self inputs)
    (hupd : doUpdate self._displayRate clock.now1 self._timeLastUpdate = true) :
    (self.work inputs clock).2 = none ∧
    (∀ p ∈ inputs, ((self.work inputs clock).1._curves.find? p.index).map
        (fun cs => cs.map QwtPlotCurve.samples) =
      some (channelPoints p (min (minElements inputs) pointsPerPlot) self._sampleRate)) ∧
    (∀ p ∈ inputs, ∀ points ∈
        channelPoints p (min (minElements inputs) pointsPerPlot) self._sampleRate,
      points.length = min (minElements inputs) pointsPerPlot) := by
  obtain ⟨h1, h2, _⟩ := work_update self inputs clock hnodup hready hupd
  refine ⟨h1, h2, ?_⟩
  intro p _ points hpts
  unfold channelPoints at hpts
  cases hd : p.dtype with
  | real k =>
    simp only [hd, List.mem_singleton] at hpts
    subst hpts
    simp
  | complex k =>
    simp only [hd, List.mem_cons, List.mem_singleton] at hpts
    rcases hpts with rfl | rfl | h
    · simp
    · simp
    · simp at h
  | custom name =>
    simp [hd] at hpts

/-- Witness for C5 amended: the first cycle after `activate` on an int32 channel with
three elements and a complex float32 channel with one element. -/
theorem work_points_witness :
    ((fresh.work [ch0, ch1] clockLate).1._curves.find? ch0.index).map
        (fun cs => cs.map QwtPlotCurve.samples) =
      some (channelPoints ch0 (min (minElements [ch0, ch1]) pointsPerPlot) fresh._sampleRate) :=
  (work_points fresh [ch0, ch1] clockLate (by decide)
    (Or.inl ⟨rfl, by decide⟩) fresh_doUpdate_late).2.1 ch0 (List.mem_cons_self _ _)

/-- C6, as stated, fails: `setupPlotterCurves` run a second time on channels
{int32 ch0, complex float32 ch1} keeps the curves of the first run and appends new ones:
two curves for ch0 and four for ch1. -/
theorem setup_twice_keeps_old_curves :
    ((fresh.setupPlotterCurves [ch0, ch1])._curves.find? 0).map
      (fun cs => cs.map QwtPlotCurve.title) = some ["Ch0"] ∧
    (((fresh.setupPlotterCurves [ch0, ch1]).setupPlotterCurves [ch0, ch1])._curves.find? 0).map
      (fun cs => cs.map QwtPlotCurve.title) = some ["Ch0", "Ch0"] ∧
    (((fresh.setupPlotterCurves [ch0, ch1]).setupPlotterCurves [ch0, ch1])._curves.find? 1).map
      (fun cs => cs.map QwtPlotCurve.title) =
        some ["Ch1.Re", "Ch1.Im", "Ch1.Re", "Ch1.Im"] := by
  decide

/-- C6, amended: for every prior content of the registry and every set of supported
input channels with distinct indices, after `activate` followed by `setupPlotterCurves`
(the order in which `work` runs the setup: only on an empty registry) the registry holds
exactly one curve `Ch<i>` for each real channel and exactly the two curves `Ch<i>.Re`,
`Ch<i>.Im` for each complex channel, and no entry for any other index. -/
theorem activate_setup_rebuilds (self : TimeDomainPlot) (inputs : List InputPort)
    (hnodup : (inputs.map InputPort.index).Nodup)
    (hsup : ∀ p ∈ inputs, p.dtype.supported = true) :
    (∀ p ∈ inputs,
      (((self.activate inputs).setupPlotterCurves inputs)._curves.find? p.index).map
        (fun cs => cs.map QwtPlotCurve.title) = some (curveTitles p)) ∧
    (∀ j, (∀ p ∈ inputs, p.index ≠ j) →
      ((self.activate inputs).setupPlotterCurves inputs)._curves.find? j = none ∧
      ((self.activate inputs).setupPlotterCurves inputs)._curveUpdaters.find? j = none) := by
  refine ⟨?_, ?_⟩
  · intro p hp
    exact (setup_bound (self.activate inputs) inputs rfl hnodup p hp (hsup p hp)).2
  · intro j hj
    exact setup_no_stale (self.activate inputs) inputs rfl rfl j hj

/-- Witness for C6 amended: the prior registry holds the curves of an earlier setup;
the channels are {int32 ch0, complex float32 ch1}. -/
theorem activate_setup_rebuilds_witness :
    ((((fresh.setupPlotterCurves [ch0, ch1]).activate [ch0, ch1]).setupPlotterCurves
        [ch0, ch1])._curves.find? ch1.index).map
      (fun cs => cs.map QwtPlotCurve.title) = some (curveTitles ch1) :=
  (activate_setup_rebuilds (fresh.setupPlotterCurves [ch0, ch1]) [ch0, ch1]
    (by decide) (by decide)).1 ch1 (List.mem_cons_of_mem _ (List.mem_cons_self _ _))

end TimeDomainPlot

namespace FreqDomainPlot

/-- C4, as stated, fails: with window size 0 `updateCurve` returns without an error and
replaces the one point the curve held by no points; with window size 1 it returns
without an error and gives the curve one point. -/
theorem updateCurve_small_window_no_error :
    min chEmpty.elements fresh._numFFTBins = 0 ∧
    (fresh.updateCurve chEmpty).2 = none ∧
    (fresh._curves.find? 0).map (fun c => c.samples.length) = some 1 ∧
    ((fresh.updateCurve chEmpty).1._curves.find? 0).map (fun c => c.samples.length) = some 0 ∧
    min chOne.elements fresh._numFFTBins = 1 ∧
    (fresh.updateCurve chOne).2 = none ∧
    ((fresh.updateCurve chOne).1._curves.find? 0).map (fun c => c.samples.length) = some 1 :=
  ⟨rfl, rfl, rfl, rfl, rfl, rfl, rfl⟩

/-- C4, amended: `updateCurve` has no window size check.  With window size
`N = min(inPort->elements(), numFFTBins())` equal to 0 or 1, on a port with a registered
converter and curve, it returns without an error and `setSamples` replaces the points of
the curve of the channel by exactly `N` new points. -/
theorem updateCurve_small_window (self : FreqDomainPlot) (inPort : InputPort)
    (hN : min inPort.elements self._numFFTBins ≤ 1) (hreg : Registered self inPort) :
    (self.updateCurve inPort).2 = none ∧
    ∃ (curve : QwtPlotCurve) (points : List (Float × Float)),
      self._curves.find? inPort.index = some curve ∧
      points.length = min inPort.elements self._numFFTBins ∧ points.length ≤ 1 ∧
      (self.updateCurve inPort).1._curves.find? inPort.index = some (curve.setSamples points) := by
  obtain ⟨curve, points, h1, h2, h3⟩ := updateCurve_registered self inPort hreg
  rw [h3]
  exact ⟨rfl, curve, points, h1, h2, h2 ▸ hN, StdMap.find?_insert_self _ _ _⟩

/-- Witness for C4 amended: window size 1. -/
theorem updateCurve_small_window_witness :
    min chOne.elements fresh._numFFTBins ≤ 1 ∧ (fresh.updateCurve chOne).2 = none :=
  ⟨by decide, (updateCurve_small_window fresh chOne (by decide) ⟨rfl, rfl⟩).1⟩

end FreqDomainPlot

/-- Every cycle of the frequency view on registered ports returns normally and consumes
every port exactly once with `minElements`, whether or not the update runs. -/
theorem FreqDomainPlot.freq_work_consumes (self : FreqDomainPlot) (inputs : List InputPort)
    (clock : Cycle) (hreg : ∀ p ∈ inputs, FreqDomainPlot.Registered self p) :
    (self.work inputs clock).2 = none ∧
    (self.work inputs clock).1.consumeLog =
      self.consumeLog ++ inputs.map (fun p => (p.index, minElements inputs)) := by
  cases hd : doUpdate self._displayRate clock.now1 self._timeLastUpdate with
  | false =>
    rw [FreqDomainPlot.freq_work_of_loop_ok self inputs clock false hd _
      (FreqDomainPlot.freq_workLoop_skip _ inputs self)]
    simp
  | true =>
    obtain ⟨h1, h2, _⟩ := FreqDomainPlot.freq_workLoop_update (minElements inputs) inputs self hreg
    rw [FreqDomainPlot.freq_work_of_loop_ok self inputs clock true hd
      (FreqDomainPlot.workLoop true (minElements inputs) inputs self).1 (Prod.ext rfl h1)]
    simp only [if_true]
    exact ⟨trivial, h2⟩

/-- Every cycle of the time view on a registry in order returns normally and consumes
every port exactly once with `minElements`, whether or not the update runs. -/
theorem TimeDomainPlot.time_work_consumes (self : TimeDomainPlot) (inputs : List InputPort)
    (clock : Cycle) (hnodup : (inputs.map InputPort.index).Nodup)
    (hready : TimeDomainPlot.Ready self inputs) :
    (self.work inputs clock).2 = none ∧
    (self.work inputs clock).1.consumeLog =
      self.consumeLog ++ inputs.map (fun p => (p.index, minElements inputs)) := by
  cases hd : doUpdate self._displayRate clock.now1 self._timeLastUpdate with
  | false =>
    obtain ⟨_, _, _, g4, _⟩ := TimeDomainPlot.lazySetup_fields self inputs
    rw [TimeDomainPlot.work_of_loop_ok self inputs clock false hd _
      (TimeDomainPlot.workLoop_skip _ inputs _)]
    simp only [Bool.false_eq_true, if_false]
    exact ⟨trivial, by rw [g4]⟩
  | true =>
    obtain ⟨h1, _, h3, _⟩ := TimeDomainPlot.work_update self inputs clock hnodup hready hd
    exact ⟨h1, h3⟩

/-- One cycle of the frequency view on registered ports, as the scheduler sees it: the
ports stay registered, the display rate stays, and the replot count and
`_timeLastUpdate` move exactly when `doUpdate` holds. -/
theorem FreqDomainPlot.work_schedule (self : FreqDomainPlot) (inputs : List InputPort)
    (clock : Cycle) (hreg : ∀ p ∈ inputs, FreqDomainPlot.Registered self p) :
    (∀ q, FreqDomainPlot.Registered self q →
      FreqDomainPlot.Registered (self.work inputs clock).1 q) ∧
    (self.work inputs clock).1._displayRate = self._displayRate ∧
    (self.work inputs clock).1.replots =
      (if doUpdate self._displayRate clock.now1 self._timeLastUpdate then self.replots + 1
       else self.replots) ∧
    (self.work inputs clock).1._timeLastUpdate =
      (if doUpdate self._displayRate clock.now1 self._timeLastUpdate then clock.now2
       else self._timeLastUpdate) := by
  cases hd : doUpdate self._displayRate clock.now1 self._timeLastUpdate with
  | false =>
    rw [FreqDomainPlot.freq_work_of_loop_ok self inputs clock false hd _
      (FreqDomainPlot.freq_workLoop_skip _ inputs self)]
    simp only [Bool.false_eq_true, if_false]
    exact ⟨fun q hq => hq, trivial, trivial, trivial⟩
  | true =>
    obtain ⟨h1, _, h3, _, h5, h6⟩ :=
      FreqDomainPlot.freq_workLoop_update (minElements inputs) inputs self hreg
    rw [FreqDomainPlot.freq_work_of_loop_ok self inputs clock true hd
      (FreqDomainPlot.workLoop true (minElements inputs) inputs self).1 (Prod.ext rfl h1)]
    simp only [if_true]
    exact ⟨fun q hq => h6 q hq, h3, by rw [h5], trivial⟩

/-- The predicate `Ready` follows from `Bound` for every port. -/
theorem TimeDomainPlot.ready_of_bound (s : TimeDomainPlot) (inputs : List InputPort)
    (hb : ∀ p ∈ inputs, TimeDomainPlot.Bound s p) : TimeDomainPlot.Ready s inputs := by
  by_cases hc : s._curves = []
  · left
    refine ⟨hc, fun p hp => ?_⟩
    have := hb p hp
    unfold TimeDomainPlot.Bound at this
    cases hd : p.dtype with
    | real k => rfl
    | complex k => rfl
    | custom name => simp [hd] at this
  · exact Or.inr ⟨hc, hb⟩

/-- One cycle of the time view on a registry in order, as the scheduler sees it: the
registry stays in order, the display rate stays, and the replot count and
`_timeLastUpdate` move exactly when `doUpdate` holds. -/
theorem TimeDomainPlot.time_work_schedule (self : TimeDomainPlot) (inputs : List InputPort)
    (clock : Cycle) (hnodup : (inputs.map InputPort.index).Nodup)
    (hready : TimeDomainPlot.Ready self inputs) :
    TimeDomainPlot.Ready (self.work inputs clock).1 inputs ∧
    (self.work inputs clock).1._displayRate = self._displayRate ∧
    (self.work inputs clock).1.replots =
      (if doUpdate self._displayRate clock.now1 self._timeLastUpdate then self.replots + 1
       else self.replots) ∧
    (self.work inputs clock).1._timeLastUpdate =
      (if doUpdate self._displayRate clock.now1 self._timeLastUpdate then clock.now2
       else self._timeLastUpdate) := by
  obtain ⟨_, g2, g3, _, g5⟩ := TimeDomainPlot.lazySetup_fields self inputs
  have hb := TimeDomainPlot.ready_bound self inputs hnodup hready
  cases hd : doUpdate self._displayRate clock.now1 self._timeLastUpdate with
  | false =>
    rw [TimeDomainPlot.work_of_loop_ok self inputs clock false hd _
      (TimeDomainPlot.workLoop_skip _ inputs _)]
    simp only [Bool.false_eq_true, if_false]
    refine ⟨?_, g2, g5, g3⟩
    apply TimeDomainPlot.ready_of_bound
    intro p hp
    exact TimeDomainPlot.Bound_congr _ _ p rfl rfl (hb p hp)
  | true =>
    obtain ⟨h1, _, _, _, _, _, h7, _, h9, h10⟩ :=
      TimeDomainPlot.workLoop_update (minElements inputs) inputs
        (if self._curves.isEmpty then self.setupPlotterCurves inputs else self) hnodup hb
    rw [TimeDomainPlot.work_of_loop_ok self inputs clock true hd
      (TimeDomainPlot.workLoop true (minElements inputs) inputs
        (if self._curves.isEmpty then self.setupPlotterCurves inputs else self)).1
      (Prod.ext rfl h1)]
    simp only [if_true]
    refine ⟨?_, by rw [h7, g2], by rw [h9, g5], trivial⟩
    apply TimeDomainPlot.ready_of_bound
    intro p hp
    exact TimeDomainPlot.Bound_congr _ _ p rfl rfl (h10 p hp)

/-- On registered ports the cycles in which the frequency view ran the update to its
end are the cycles the scheduler selects. -/
theorem FreqDomainPlot.freq_updateTimes_eq_passTimes (inputs : List InputPort) :
    ∀ (cycles : List Cycle) (self : FreqDomainPlot),
    (∀ p ∈ inputs, FreqDomainPlot.Registered self p) →
    FreqDomainPlot.updateTimes inputs cycles self =
      passTimes self._displayRate self._timeLastUpdate cycles := by
  intro cycles
  induction cycles with
  | nil => intro self _; rfl
  | cons c cs ih =>
    intro self hreg
    obtain ⟨h1, h2, h3, h4⟩ := FreqDomainPlot.work_schedule self inputs c hreg
    have hnext := ih (self.work inputs c).1 (fun p hp => h1 p (hreg p hp))
    rw [h2, h4] at hnext
    simp only [FreqDomainPlot.updateTimes, passTimes, hnext, h3]
    cases hd : doUpdate self._displayRate c.now1 self._timeLastUpdate with
    | false => simp
    | true => simp

/-- On a registry in order the cycles in which the time view ran the update to its end
are the cycles the scheduler selects. -/
theorem TimeDomainPlot.time_updateTimes_eq_passTimes (inputs : List InputPort)
    (hnodup : (inputs.map InputPort.index).Nodup) :
    ∀ (cycles : List Cycle) (self : TimeDomainPlot),
    TimeDomainPlot.Ready self inputs →
    TimeDomainPlot.updateTimes inputs cycles self =
      passTimes self._displayRate self._timeLastUpdate cycles := by
  intro cycles
  induction cycles with
  | nil => intro self _; rfl
  | cons c cs ih =>
    intro self hready
    obtain ⟨h1, h2, h3, h4⟩ := TimeDomainPlot.time_work_schedule self inputs c hnodup hready
    have hnext := ih (self.work inputs c).1 h1
    rw [h2, h4] at hnext
    simp only [TimeDomainPlot.updateTimes, passTimes, hnext, h3]
    cases hd : doUpdate self._displayRate c.now1 self._timeLastUpdate with
    | false => simp
    | true => simp

/-- The result of `updateCurve` on a registered port. -/
theorem FreqDomainPlot.updateCurve_eq (self : FreqDomainPlot) (inPort : InputPort)
    (hreg : FreqDomainPlot.Registered self inPort) :
    ∃ (converter : InputConverter) (curve : QwtPlotCurve),
      self._inputConverters.find? inPort.index = some converter ∧
      self._curves.find? inPort.index = some curve ∧
      self.updateCurve inPort =
        ({ self with
            _curves := StdMap.insert self._curves inPort.index
              (curve.setSamples (FreqDomainPlot.curvePoints self._sampleRateWoAxisUnits
                (convertElementsToCArray converter.isComplex inPort
                  (List.replicate (min inPort.elements self._numFFTBins) ⟨0, 0⟩)))) },
         none) := by
  obtain ⟨h1, h2⟩ := hreg
  cases hconv : self._inputConverters.find? inPort.index with
  | none => rw [hconv] at h1; simp at h1
  | some converter =>
    cases hcurve : self._curves.find? inPort.index with
    | none => rw [hcurve] at h2; simp at h2
    | some curve =>
      exact ⟨converter, curve, rfl, rfl, by simp only [FreqDomainPlot.updateCurve, hconv, hcurve]⟩

/-- The loop of `work` of the frequency view with the update on, on registered ports
with distinct indices: the curve of every port has received the points `updateCurve`
computes from the buffer of the port. -/
theorem FreqDomainPlot.freq_workLoop_curves (nsamps : Nat) :
    ∀ (ps : List InputPort) (s : FreqDomainPlot),
    (ps.map InputPort.index).Nodup → (∀ p ∈ ps, FreqDomainPlot.Registered s p) →
    (∀ p ∈ ps, ∃ (converter : InputConverter) (curve : QwtPlotCurve),
      s._inputConverters.find? p.index = some converter ∧
      s._curves.find? p.index = some curve ∧
      (FreqDomainPlot.workLoop true nsamps ps s).1._curves.find? p.index =
        some (curve.setSamples (FreqDomainPlot.curvePoints s._sampleRateWoAxisUnits
          (convertElementsToCArray converter.isComplex p
            (List.replicate (min p.elements s._numFFTBins) ⟨0, 0⟩))))) ∧
    (∀ j, (∀ p ∈ ps, p.index ≠ j) →
      (FreqDomainPlot.workLoop true nsamps ps s).1._curves.find? j = s._curves.find? j) := by
  intro ps
  induction ps with
  | nil => intro s _ _; simp [FreqDomainPlot.workLoop]
  | cons p rest ih =>
    intro s hnodup hreg
    simp only [List.map_cons, List.nodup_cons] at hnodup
    obtain ⟨hnot, hnd⟩ := hnodup
    have hother : ∀ q ∈ rest, p.index ≠ q.index := by
      intro q hq heq
      exact hnot (heq ▸ List.mem_map_of_mem _ hq)
    have hp := hreg p (List.mem_cons_self _ _)
    obtain ⟨converter, curve, hconv, hcurve, hrun⟩ := FreqDomainPlot.updateCurve_eq s p hp
    have hrest : ∀ q ∈ rest,
        FreqDomainPlot.Registered ((s.updateCurve p).1.consume p nsamps) q := fun q hq =>
      FreqDomainPlot.updateCurve_keeps_registered s p q hp (hreg q (List.mem_cons_of_mem _ hq))
    obtain ⟨h1, h2⟩ := ih ((s.updateCurve p).1.consume p nsamps) hnd hrest
    have hstep : FreqDomainPlot.workLoop true nsamps (p :: rest) s =
        FreqDomainPlot.workLoop true nsamps rest ((s.updateCurve p).1.consume p nsamps) := by
      simp only [FreqDomainPlot.workLoop, hrun, if_true]
    rw [hstep]
    refine ⟨?_, ?_⟩
    · intro q hq
      rcases List.mem_cons.1 hq with rfl | hq
      · refine ⟨converter, curve, hconv, hcurve, ?_⟩
        rw [h2 q.index (fun r hr heq => hother r hr heq.symm), hrun]
        exact StdMap.find?_insert_self _ _ _
      · obtain ⟨c2, k2, g1, g2, g3⟩ := h1 q hq
        rw [hrun] at g1 g2 g3
        refine ⟨c2, k2, g1, ?_, ?_⟩
        · rw [← g2]
          exact (StdMap.find?_insert_of_ne _ _ _ _ (hother q hq)).symm
        · rw [hrun]
          exact g3
    · intro j hj
      rw [h2 j (fun r hr => hj r (List.mem_cons_of_mem _ hr)), hrun]
      exact StdMap.find?_insert_of_ne _ _ _ _ (hj p (List.mem_cons_self _ _))

/-- The loop of `work` of the time view never touches the replot count and the stored
time point, also when it throws. -/
theorem TimeDomainPlot.workLoop_fields (d : Bool) (nsamps : Nat) :
    ∀ (ps : List InputPort) (s : TimeDomainPlot),
    (TimeDomainPlot.workLoop d nsamps ps s).1.replots = s.replots ∧
    (TimeDomainPlot.workLoop d nsamps ps s).1._timeLastUpdate = s._timeLastUpdate := by
  intro ps
  induction ps with
  | nil => intro s; exact ⟨rfl, rfl⟩
  | cons p rest ih =>
    intro s
    cases d with
    | false =>
      simp only [TimeDomainPlot.workLoop, Bool.false_eq_true, if_false]
      exact ih _
    | true =>
      simp only [TimeDomainPlot.workLoop, if_true]
      cases hu : s._curveUpdaters.find? p.index with
      | none => exact ⟨rfl, rfl⟩
      | some u =>
        simp only
        obtain ⟨h1, h2⟩ := ih ((s.callUpdater u p (min nsamps pointsPerPlot) s._sampleRate).consume
          p nsamps)
        rw [h1, h2]
        unfold TimeDomainPlot.consume TimeDomainPlot.callUpdater
        split <;> exact ⟨rfl, rfl⟩

/-- The method `updateCurve` never touches the replot count and the stored time point. -/
theorem FreqDomainPlot.updateCurve_fields (s : FreqDomainPlot) (p : InputPort) :
    (s.updateCurve p).1.replots = s.replots ∧
    (s.updateCurve p).1._timeLastUpdate = s._timeLastUpdate := by
  unfold FreqDomainPlot.updateCurve
  split
  · exact ⟨rfl, rfl⟩
  · split <;> exact ⟨rfl, rfl⟩

/-- The loop of `work` of the frequency view never touches the replot count and the
stored time point, also when it throws. -/
theorem FreqDomainPlot.freq_workLoop_fields (d : Bool) (nsamps : Nat) :
    ∀ (ps : List InputPort) (s : FreqDomainPlot),
    (FreqDomainPlot.workLoop d nsamps ps s).1.replots = s.replots ∧
    (FreqDomainPlot.workLoop d nsamps ps s).1._timeLastUpdate = s._timeLastUpdate := by
  intro ps
  induction ps with
  | nil => intro s; exact ⟨rfl, rfl⟩
  | cons p rest ih =>
    intro s
    cases d with
    | false =>
      simp only [FreqDomainPlot.workLoop, Bool.false_eq_true, if_false]
      exact ih _
    | true =>
      simp only [FreqDomainPlot.workLoop, if_true]
      obtain ⟨g1, g2⟩ := FreqDomainPlot.updateCurve_fields s p
      cases hr : s.updateCurve p with
      | mk s2 e =>
        rw [hr] at g1 g2
        cases e with
        | some e => exact ⟨g1, g2⟩
        | none =>
          simp only
          obtain ⟨h1, h2⟩ := ih (s2.consume p nsamps)
          rw [h1, h2]
          exact ⟨g1, g2⟩

/-- C8, as stated, fails, in both directions.  Lower bound: a frequency view at
displayRate 10 with a single `work` cycle at 2 s runs the update once, so the interval
of 5 s from time 0 holds one executed pass, fewer than `floor(T*R) - 1 = 49`.  Upper
bound: at displayRate 2^-34 the quotient `1e9/R` is out of range for `long long`, the
threshold is the least `long long`, and two cycles one nanosecond apart both run the
update, more than `floor(T*R) + 1 = 1` in an interval of 1 ns. -/
theorem update_passes_bounds_fail :
    FreqDomainPlot.updateTimes [ch0] [⟨2000000000, 2000000001⟩] FreqDomainPlot.fresh =
      [2000000000] ∧
    ¬ (⌊((5000000000 : Nat) : ℚ) / 10 ^ 9 * FreqDomainPlot.fresh._displayRate⌋ - 1 ≤
        (passesIn 0 5000000000
          (FreqDomainPlot.updateTimes [ch0] [⟨2000000000, 2000000001⟩]
            FreqDomainPlot.fresh) : Int)) ∧
    FreqDomainPlot.updateTimes [ch0] [⟨1, 1⟩, ⟨2, 2⟩] FreqDomainPlot.verySlow = [1, 2] ∧
    ¬ ((passesIn 1 1
          (FreqDomainPlot.updateTimes [ch0] [⟨1, 1⟩, ⟨2, 2⟩] FreqDomainPlot.verySlow) : Int) ≤
        ⌊((1 : Nat) : ℚ) / 10 ^ 9 * FreqDomainPlot.verySlow._displayRate⌋ + 1) := by
  have hreg : ∀ p ∈ [ch0], FreqDomainPlot.Registered FreqDomainPlot.fresh p := by
    intro p hp; rw [List.mem_singleton.1 hp]; exact ⟨rfl, rfl⟩
  have hreg2 : ∀ p ∈ [ch0], FreqDomainPlot.Registered FreqDomainPlot.verySlow p := by
    intro p hp; rw [List.mem_singleton.1 hp]; exact ⟨rfl, rfl⟩
  have h1 : FreqDomainPlot.updateTimes [ch0] [⟨2000000000, 2000000001⟩] FreqDomainPlot.fresh =
      [2000000000] := by
    rw [FreqDomainPlot.freq_updateTimes_eq_passTimes [ch0] _ _ hreg]
    simp [passTimes, doUpdate, FreqDomainPlot.fresh, timeBetweenUpdates_ten]
  have h2 : FreqDomainPlot.updateTimes [ch0] [⟨1, 1⟩, ⟨2, 2⟩] FreqDomainPlot.verySlow =
      [1, 2] := by
    have hthr : timeBetweenUpdates FreqDomainPlot.verySlow._displayRate = -(2 : Int) ^ 63 :=
      timeBetweenUpdates_tiny
    have hlast : FreqDomainPlot.verySlow._timeLastUpdate = 0 := rfl
    rw [FreqDomainPlot.freq_updateTimes_eq_passTimes [ch0] _ _ hreg2]
    simp [passTimes, doUpdate, hthr, hlast]
  refine ⟨h1, ?_, h2, ?_⟩
  · rw [h1]
    have hfloor : ⌊((5000000000 : Nat) : ℚ) / 10 ^ 9 * FreqDomainPlot.fresh._displayRate⌋ =
        50 := by
      simp only [FreqDomainPlot.fresh]
      norm_num
    rw [hfloor]
    decide
  · rw [h2]
    have hfloor : ⌊((1 : Nat) : ℚ) / 10 ^ 9 * FreqDomainPlot.verySlow._displayRate⌋ = 0 := by
      simp only [FreqDomainPlot.verySlow]
      rw [Int.floor_eq_iff]
      constructor <;> norm_num
    rw [hfloor]
    decide

/-- C8, amended: for every displayRate R > 0 whose update period `1e9/R` is below 2^53
nanoseconds, every sequence of `work` cycles of either view on a registry in order (the
second clock reading of a cycle not before its first) and every interval `[a, a + T]` of
length `T` nanoseconds, the number of cycles in the interval in which `work` ran the
update is at most `floor(T*R) + 1` (with `T` in seconds); no lower bound is stated. -/
theorem update_passes_upper_bound (R : ℚ) (hR : 0 < R) (h53 : 10 ^ 9 / R < 2 ^ 53) :
    (∀ (self : FreqDomainPlot) (inputs : List InputPort) (cycles : List Cycle)
        (a : Int) (T : Nat),
      self._displayRate = R → (∀ p ∈ inputs, FreqDomainPlot.Registered self p) →
      (∀ c ∈ cycles, c.now1 ≤ c.now2) →
      (passesIn a T (FreqDomainPlot.updateTimes inputs cycles self) : Int) ≤
        ⌊(T : ℚ) / 10 ^ 9 * R⌋ + 1) ∧
    (∀ (self : TimeDomainPlot) (inputs : List InputPort) (cycles : List Cycle)
        (a : Int) (T : Nat),
      self._displayRate = R → (inputs.map InputPort.index).Nodup →
      TimeDomainPlot.Ready self inputs → (∀ c ∈ cycles, c.now1 ≤ c.now2) →
      (passesIn a T (TimeDomainPlot.updateTimes inputs cycles self) : Int) ≤
        ⌊(T : ℚ) / 10 ^ 9 * R⌋ + 1) := by
  refine ⟨?_, ?_⟩
  · intro self inputs cycles a T hrate hreg hclock
    rw [FreqDomainPlot.freq_updateTimes_eq_passTimes inputs cycles self hreg, hrate]
    exact passTimes_upper_bound R hR h53 _ cycles hclock a T
  · intro self inputs cycles a T hrate hnodup hready hclock
    rw [TimeDomainPlot.time_updateTimes_eq_passTimes inputs hnodup cycles self hready, hrate]
    exact passTimes_upper_bound R hR h53 _ cycles hclock a T

/-- Witness for C8 amended: displayRate 10, a frequency view with one registered
channel, three cycles, the interval of one second from time 0. -/
theorem update_passes_upper_bound_witness :
    (0 : ℚ) < 10 ∧ (10 : ℚ) ^ 9 / 10 < 2 ^ 53 ∧
    (passesIn 0 1000000000
      (FreqDomainPlot.updateTimes [ch0]
        [⟨150000000, 150000001⟩, ⟨200000000, 200000001⟩, ⟨400000000, 400000001⟩]
        FreqDomainPlot.fresh) : Int) ≤ ⌊((1000000000 : Nat) : ℚ) / 10 ^ 9 * 10⌋ + 1 :=
  ⟨by norm_num, by norm_num,
   (update_passes_upper_bound 10 (by norm_num) (by norm_num)).1 FreqDomainPlot.fresh [ch0] _
      0 1000000000 rfl
      (by intro p hp; rw [List.mem_singleton.1 hp]; exact ⟨rfl, rfl⟩) (by decide)⟩

/-- C9, as stated, fails: with `_displayRate` the literal `0.1` the quotient
`1e9/_displayRate` rounds to the `double` 1e10, so the threshold is 10000000000 ns; at
exactly 10 s after the last update `now - _timeLastUpdate > 1/R` holds, yet `doUpdate`
is false and `work` updates no curve, posts no replot and keeps `_timeLastUpdate`. -/
theorem work_skips_at_ten_seconds :
    roundToDouble (1 / 10) = FreqDomainPlot.slow._displayRate ∧
    timeBetweenUpdates FreqDomainPlot.slow._displayRate = 10000000000 ∧
    1 / FreqDomainPlot.slow._displayRate <
      ((clockTenSeconds.now1 - FreqDomainPlot.slow._timeLastUpdate : Int) : ℚ) / 10 ^ 9 ∧
    (FreqDomainPlot.slow.work [ch0] clockTenSeconds).2 = none ∧
    (FreqDomainPlot.slow.work [ch0] clockTenSeconds).1.replots = 0 ∧
    (FreqDomainPlot.slow.work [ch0] clockTenSeconds).1._timeLastUpdate = 0 ∧
    (FreqDomainPlot.slow.work [ch0] clockTenSeconds).1._curves = FreqDomainPlot.slow._curves := by
  have hd : doUpdate FreqDomainPlot.slow._displayRate clockTenSeconds.now1
      FreqDomainPlot.slow._timeLastUpdate = false := by
    simp [doUpdate, FreqDomainPlot.slow, FreqDomainPlot.fresh, clockTenSeconds,
      timeBetweenUpdates_doubleTenth]
  rw [FreqDomainPlot.freq_work_of_loop_ok FreqDomainPlot.slow [ch0] clockTenSeconds false hd _
    (FreqDomainPlot.freq_workLoop_skip _ [ch0] FreqDomainPlot.slow)]
  refine ⟨roundToDouble_tenth, timeBetweenUpdates_doubleTenth, ?_, rfl, rfl, rfl, rfl⟩
  simp only [FreqDomainPlot.slow, FreqDomainPlot.fresh, clockTenSeconds, doubleTenth]
  norm_num

/-- C9, amended: for every displayRate R > 0 whose update period `1e9/R` is below 2^53
nanoseconds and clock readings in whole nanoseconds, `work` runs the update exactly when
`now - _timeLastUpdate` exceeds `timeBetweenUpdates`, the `double` quotient `1e9/R`
truncated to whole nanoseconds.  Every update that runs has `now - _timeLastUpdate > 1/R`,
and every cycle with `now - _timeLastUpdate > 1/R + 1 ns` runs the update.  When the
update does not run, `work` of either view returns normally, consumes every port, updates
no curve, posts no replot and leaves `_timeLastUpdate` unchanged.  When it runs, every
`work` call that returns normally has posted one replot and set `_timeLastUpdate` to the
clock reading taken after the update, and on a registry in order (port indices distinct)
`work` does return normally and the curve or curves of every channel have received the
points computed from the buffer of the port. -/
theorem work_update_decision (R : ℚ) (hR : 0 < R) (h53 : 10 ^ 9 / R < 2 ^ 53) :
    (∀ now timeLastUpdate : Int,
      (doUpdate R now timeLastUpdate = true ↔ timeBetweenUpdates R < now - timeLastUpdate) ∧
      (doUpdate R now timeLastUpdate = true →
        1 / R < ((now - timeLastUpdate : Int) : ℚ) / 10 ^ 9) ∧
      (1 / R + 1 / 10 ^ 9 < ((now - timeLastUpdate : Int) : ℚ) / 10 ^ 9 →
        doUpdate R now timeLastUpdate = true)) ∧
    (∀ (self : FreqDomainPlot) (inputs : List InputPort) (clock : Cycle),
      self._displayRate = R →
      (doUpdate R clock.now1 self._timeLastUpdate = false →
        self.work inputs clock =
          ({ self with consumeLog :=
              self.consumeLog ++ inputs.map (fun p => (p.index, minElements inputs)) }, none)) ∧
      (doUpdate R clock.now1 self._timeLastUpdate = true →
        ((self.work inputs clock).2 = none →
          (self.work inputs clock).1.replots = self.replots + 1 ∧
          (self.work inputs clock).1._timeLastUpdate = clock.now2) ∧
        ((inputs.map InputPort.index).Nodup →
          (∀ p ∈ inputs, FreqDomainPlot.Registered self p) →
          (self.work inputs clock).2 = none ∧
          ∀ p ∈ inputs, ∃ (converter : InputConverter) (curve : QwtPlotCurve),
            self._inputConverters.find? p.index = some converter ∧
            self._curves.find? p.index = some curve ∧
            (self.work inputs clock).1._curves.find? p.index =
              some (curve.setSamples
                (FreqDomainPlot.curvePoints self._sampleRateWoAxisUnits
                  (convertElementsToCArray converter.isComplex p
                    (List.replicate (min p.elements self._numFFTBins) ⟨0, 0⟩))))))) ∧
    (∀ (self : TimeDomainPlot) (inputs : List InputPort) (clock : Cycle),
      self._displayRate = R →
      (doUpdate R clock.now1 self._timeLastUpdate = false →
        (self.work inputs clock).2 = none ∧
        (self.work inputs clock).1._curves =
          (if self._curves.isEmpty then self.setupPlotterCurves inputs else self)._curves ∧
        (self.work inputs clock).1.consumeLog =
          self.consumeLog ++ inputs.map (fun p => (p.index, minElements inputs)) ∧
        (self.work inputs clock).1.replots = self.replots ∧
        (self.work inputs clock).1._timeLastUpdate = self._timeLastUpdate) ∧
      (doUpdate R clock.now1 self._timeLastUpdate = true →
        ((self.work inputs clock).2 = none →
          (self.work inputs clock).1.replots = self.replots + 1 ∧
          (self.work inputs clock).1._timeLastUpdate = clock.now2) ∧
        ((inputs.map InputPort.index).Nodup → TimeDomainPlot.Ready self inputs →
          (self.work inputs clock).2 = none ∧
          ∀ p ∈ inputs, ((self.work inputs clock).1._curves.find? p.index).map
              (fun cs => cs.map QwtPlotCurve.samples) =
            some (TimeDomainPlot.channelPoints p (min (minElements inputs) pointsPerPlot)
              self._sampleRate)))) := by
  refine ⟨fun now last => ⟨?_, (doUpdate_bounds R hR h53 now last).1,
    (doUpdate_bounds R hR h53 now last).2⟩, ?_, ?_⟩
  · unfold doUpdate
    rw [decide_eq_true_iff, gt_iff_lt]
  · intro self inputs clock hrate
    subst hrate
    refine ⟨?_, ?_⟩
    · intro hd
      rw [FreqDomainPlot.freq_work_of_loop_ok self inputs clock false hd _
        (FreqDomainPlot.freq_workLoop_skip _ inputs self)]
      simp
    · intro hd
      refine ⟨?_, ?_⟩
      · intro hok
        obtain ⟨g1, _⟩ := FreqDomainPlot.freq_workLoop_fields true (minElements inputs) inputs self
        cases hr : FreqDomainPlot.workLoop true (minElements inputs) inputs self with
        | mk s e =>
          rw [hr] at g1
          cases e with
          | some e => simp [FreqDomainPlot.work, hd, hr] at hok
          | none =>
            rw [FreqDomainPlot.freq_work_of_loop_ok self inputs clock true hd s hr]
            simp only [if_true]
            exact ⟨by rw [← g1], trivial⟩
      · intro hnodup hreg
        obtain ⟨h1, _⟩ :=
          FreqDomainPlot.freq_workLoop_update (minElements inputs) inputs self hreg
        obtain ⟨hc, _⟩ :=
          FreqDomainPlot.freq_workLoop_curves (minElements inputs) inputs self hnodup hreg
        rw [FreqDomainPlot.freq_work_of_loop_ok self inputs clock true hd
          (FreqDomainPlot.workLoop true (minElements inputs) inputs self).1 (Prod.ext rfl h1)]
        simp only [if_true]
        exact ⟨trivial, hc⟩
  · intro self inputs clock hrate
    subst hrate
    refine ⟨?_, ?_⟩
    · intro hd
      obtain ⟨_, _, g3, g4, g5⟩ := TimeDomainPlot.lazySetup_fields self inputs
      rw [TimeDomainPlot.work_of_loop_ok self inputs clock false hd _
        (TimeDomainPlot.workLoop_skip _ inputs _)]
      simp only [Bool.false_eq_true, if_false]
      exact ⟨trivial, trivial, by rw [g4], g5, g3⟩
    · intro hd
      refine ⟨?_, ?_⟩
      · intro hok
        obtain ⟨_, _, _, _, g5⟩ := TimeDomainPlot.lazySetup_fields self inputs
        obtain ⟨g1, _⟩ := TimeDomainPlot.workLoop_fields true (minElements inputs) inputs
          (if self._curves.isEmpty then self.setupPlotterCurves inputs else self)
        cases hr : TimeDomainPlot.workLoop true (minElements inputs) inputs
            (if self._curves.isEmpty then self.setupPlotterCurves inputs else self) with
        | mk s e =>
          rw [hr] at g1
          cases e with
          | some e =>
            rw [TimeDomainPlot.work_of_loop_throw self inputs clock true hd s e hr] at hok
            simp at hok
          | none =>
            rw [TimeDomainPlot.work_of_loop_ok self inputs clock true hd s hr]
            simp only [if_true]
            exact ⟨by rw [← g5, ← g1], trivial⟩
      · intro hnodup hready
        obtain ⟨h1, h2, _⟩ := TimeDomainPlot.work_update self inputs clock hnodup hready hd
        exact ⟨h1, h2⟩

/-- Witness for C9 amended: display rate 10, a frequency view with one registered
channel, and a comparison 0.15 s after the last update. -/
theorem work_update_decision_witness :
    (0 : ℚ) < 10 ∧ (10 : ℚ) ^ 9 / 10 < 2 ^ 53 ∧
    (FreqDomainPlot.fresh.work [ch0] clockLate).1.replots = 1 :=
  ⟨by norm_num, by norm_num,
   ((((work_update_decision 10 (by norm_num) (by norm_num)).2.1 FreqDomainPlot.fresh [ch0]
        clockLate rfl).2
      (by simp [doUpdate, FreqDomainPlot.fresh, clockLate, timeBetweenUpdates_ten])).1
      ((((work_update_decision 10 (by norm_num) (by norm_num)).2.1 FreqDomainPlot.fresh [ch0]
        clockLate rfl).2
        (by simp [doUpdate, FreqDomainPlot.fresh, clockLate, timeBetweenUpdates_ten])).2
        (by decide)
        (by intro p hp; rw [List.mem_singleton.1 hp]; exact ⟨rfl, rfl⟩)).1).1⟩

end PothosWidgets
